import Mathlib

/-!
Verification development for the AdmitGuard admission-data pipeline
(`src/Script.py`).  The script is a single sequential batch program:

* Step 1 reads the raw table and a config table, resolves numeric
  thresholds, and normalises the raw columns (lines 196-267);
* Step 2 classifies each unprocessed row into Clean / Rejected /
  Exception and writes back per-row `Pipeline Status` markers
  (lines 270-513);
* Step 3 migrates reviewer-approved Exception rows into Clean Data
  (lines 516-639);
* Step 4 validates, deduplicates and merges external test scores
  (lines 642-731);
* Step 6 derives a run status and appends one run-log row
  (lines 810-861).

The embedding below translates those parts directly.  Numeric values are
modelled by the exact fraction type `Frac` (integer numerator, natural
denominator, comparisons by cross multiplication) because the script's
thresholds and scores are plain decimal literals; `Frac.toRat` maps a
fraction to `ℚ` for algebraic statements.  Python string operations
(`strip`, `lower`, `title`, regular expressions) are modelled as ASCII
character-list functions.
-/

namespace AdmitGuard

/-! ### Python-style string primitives -/

/-- Whitespace characters removed by Python `str.strip()`. -/
def isSpaceChar (c : Char) : Bool :=
  c = ' ' || c = '\t' || c = '\n' || c = '\r' || c = '\x0b' || c = '\x0c'

/-- Model of Python `str.strip()`. -/
def strip (s : String) : String :=
  String.mk (((s.data.dropWhile isSpaceChar).reverse.dropWhile isSpaceChar).reverse)

/-- ASCII lowercase of one character. -/
def lowerChar (c : Char) : Char :=
  if c.isUpper then Char.ofNat (c.toNat + 32) else c

/-- ASCII uppercase of one character. -/
def upperChar (c : Char) : Char :=
  if c.isLower then Char.ofNat (c.toNat - 32) else c

/-- Model of Python `str.lower()` (ASCII fragment). -/
def lower (s : String) : String :=
  String.mk (s.data.map lowerChar)

/-- Helper for `title`: the Bool records whether the previous character
was alphabetic (i.e. we are inside a word). -/
def titleChars : Bool → List Char → List Char
  | _, [] => []
  | prev, c :: cs =>
    (if c.isAlpha then (if prev then lowerChar c else upperChar c) else c)
      :: titleChars c.isAlpha cs

/-- Model of Python `str.title()` (ASCII fragment): the first letter of
every alphabetic run is uppercased, the rest lowercased. -/
def title (s : String) : String :=
  String.mk (titleChars false s.data)

/-- Model of `re.sub(r"[^0-9]", "", s)`: keep only the digits. -/
def digitsOnly (s : String) : String :=
  String.mk (s.data.filter Char.isDigit)

/-- Split a character list at the first occurrence of `c`, returning the
parts before and after it. -/
def splitFirst (c : Char) : List Char → Option (List Char × List Char)
  | [] => none
  | x :: xs =>
    if x = c then some ([], xs)
    else
      match splitFirst c xs with
      | some (a, b) => some (x :: a, b)
      | none => none

/-- Characters of the `\w` class in the script's regexes (ASCII). -/
def isWordChar (c : Char) : Bool :=
  c.isAlpha || c.isDigit || c = '_'

/-- Characters of the `[\w\.-]` class in the script's email regex. -/
def isLocalChar (c : Char) : Bool :=
  isWordChar c || c = '.' || c = '-'

/-- Model of `re.match(r"^[\w\.-]+@[\w\.-]+\.\w{2,}$", s)` (line 339,
applied to the already stripped and lowercased email, so the
`$`-before-newline corner of Python regexes cannot arise).  The regex
forces a unique `@`; the domain matches iff splitting it at its last dot
leaves a non-empty `[\w\.-]+` part and a `\w{2,}` part, since a valid
split point can only be the last dot (no dots may follow it). -/
def emailFormatOk (s : String) : Bool :=
  match splitFirst '@' s.data with
  | none => false
  | some (loc, dom) =>
    (!loc.isEmpty && loc.all isLocalChar) &&
      (match splitFirst '.' dom.reverse with
       | none => false
       | some (tldRev, restRev) =>
         (!restRev.isEmpty && restRev.all isLocalChar) &&
           (tldRev.length ≥ 2 && tldRev.all isWordChar))

/-- Model of `re.match(r"^[6-9]\d{9}$", p)` (line 350). -/
def phoneOk (p : String) : Bool :=
  match p.data with
  | [] => false
  | c :: rest =>
    (c = '6' || c = '7' || c = '8' || c = '9') &&
      rest.length = 9 && rest.all Char.isDigit

/-- Model of `re.match(r"^\d{12}$", a)` (line 357). -/
def adharOk (a : String) : Bool :=
  a.data.length = 12 && a.data.all Char.isDigit

/-! ### Exact fractions

The script manipulates decimal numbers through Python floats; every
literal involved (config values, scores, thresholds) is a decimal
string, so the comparisons the script performs are exact decimal
comparisons.  `Frac` represents `num / den` with comparisons by cross
multiplication; parsing a decimal string always produces a positive
power-of-ten denominator. -/

structure Frac where
  num : Int
  den : Nat
deriving DecidableEq, Repr

/-- Embed a natural number. -/
def Frac.ofNat (n : Nat) : Frac := ⟨n, 1⟩

/-- Cross-multiplied `≤` (faithful to rational order when both
denominators are positive). -/
def Frac.le (a b : Frac) : Bool :=
  a.num * (b.den : Int) ≤ b.num * (a.den : Int)

/-- Cross-multiplied `<`. -/
def Frac.lt (a b : Frac) : Bool :=
  a.num * (b.den : Int) < b.num * (a.den : Int)

/-- Exact subtraction. -/
def Frac.sub (a b : Frac) : Frac :=
  ⟨a.num * (b.den : Int) - b.num * (a.den : Int), a.den * b.den⟩

/-- The rational value a fraction denotes. -/
def Frac.toRat (q : Frac) : ℚ := (q.num : ℚ) / (q.den : ℚ)

/-- Numeric value of a digit list (most significant first). -/
def digitsVal (l : List Char) : Nat :=
  l.foldl (fun a c => a * 10 + (c.toNat - 48)) 0

/-- Parse an unsigned decimal literal (`123`, `1.5`, `.5`, `7.`),
mirroring what Python `float()` accepts on the script's inputs.
Exponent forms and `inf`/`nan` literals are not produced by the
pipeline's data and are treated as unparsable. -/
def parseUnsigned (cs : List Char) : Option Frac :=
  match splitFirst '.' cs with
  | none =>
    if !cs.isEmpty && cs.all Char.isDigit then some ⟨digitsVal cs, 1⟩ else none
  | some (a, b) =>
    if (!a.isEmpty || !b.isEmpty) && a.all Char.isDigit && b.all Char.isDigit then
      some ⟨digitsVal a * 10 ^ b.length + digitsVal b, 10 ^ b.length⟩
    else none

/-- Model of Python `float(s)` on the script's decimal inputs; `none`
models a raised `ValueError`. -/
def parseFloat (s : String) : Option Frac :=
  match (strip s).data with
  | [] => none
  | c :: rest =>
    if c = '-' then (parseUnsigned rest).map (fun q => ⟨-q.num, q.den⟩)
    else if c = '+' then parseUnsigned rest
    else parseUnsigned (c :: rest)

/-- Model of Python `int(s)`; `none` models a raised `ValueError`. -/
def parseIntStr (s : String) : Option Int :=
  match (strip s).data with
  | [] => none
  | c :: rest =>
    if c = '-' then
      (if !rest.isEmpty && rest.all Char.isDigit then some (-(digitsVal rest : Int)) else none)
    else if c = '+' then
      (if !rest.isEmpty && rest.all Char.isDigit then some (digitsVal rest : Int) else none)
    else
      (if !(c :: rest).isEmpty && (c :: rest).all Char.isDigit then
        some (digitsVal (c :: rest) : Int)
      else none)

/-! ### Config resolver (Script.py lines 198-220)

The script builds `config` as a dict from the Config tab and converts
each recognised parameter with an unguarded `float()` / `int()` call:
an absent key falls back to the Python default, but a present,
malformed value raises and aborts the run. -/

structure Config where
  bufPct : Frac
  bufCgpa : Frac
  minPct : Frac
  minCgpa : Frac
  gradYrMin : Int
  gradYrMax : Int
  maxExp : Frac
  minTestScore : Frac
deriving DecidableEq, Repr

/-- Model of `float(config.get(key, default))`: absent key yields the
default float, a present key is parsed and a parse failure is the
raised `ValueError`. -/
def getFloat (cfg : String → Option String) (key : String) (dflt : Frac) :
    Except String Frac :=
  match cfg key with
  | none => Except.ok dflt
  | some s =>
    match parseFloat s with
    | some q => Except.ok q
    | none => Except.error ("could not convert string to float: " ++ s)

/-- Model of `int(config.get(key, default))`. -/
def getInt (cfg : String → Option String) (key : String) (dflt : Int) :
    Except String Int :=
  match cfg key with
  | none => Except.ok dflt
  | some s =>
    match parseIntStr s with
    | some n => Except.ok n
    | none => Except.error ("invalid literal for int: " ++ s)

/-- Threshold resolution, in the evaluation order of lines 211-220. -/
def resolveConfig (cfg : String → Option String) : Except String Config := do
  let bufPct ← getFloat cfg "Exception Buffer PCT" ⟨1, 1⟩
  let bufCgpa ← getFloat cfg "Exception Buffer CGPA" ⟨1, 10⟩
  let minPct ← getFloat cfg "Min Percentage" ⟨60, 1⟩
  let minCgpa ← getFloat cfg "Min CGPA" ⟨6, 1⟩
  let gradYrMin ← getInt cfg "Graduation Year Min" 2010
  let gradYrMax ← getInt cfg "Graduation Year Max" 2025
  let maxExp ← getFloat cfg "Max Experience" ⟨40, 1⟩
  let minTestScore ← getFloat cfg "Min Test Score" ⟨40, 1⟩
  pure ⟨bufPct, bufCgpa, minPct, minCgpa, gradYrMin, gradYrMax, maxExp, minTestScore⟩

/-- The documented defaults (lines 211-220 with every key absent). -/
def defaultConfig : Config :=
  ⟨⟨1, 1⟩, ⟨1, 10⟩, ⟨60, 1⟩, ⟨6, 1⟩, 2010, 2025, ⟨40, 1⟩, ⟨40, 1⟩⟩

/-- Boolean success test for `Except`. -/
def exOk {ε α : Type} : Except ε α → Bool
  | Except.ok _ => true
  | Except.error _ => false

/-! ### Raw rows and field normalisation (lines 50-54, 222-245) -/

/-- One raw-sheet row; every cell is the string the sheet holds (an
absent column reads as `""`, as `row.get(field, "")` does).  `marker`
is the `Pipeline Status` cell. -/
structure Row where
  firstName : String
  lastName : String
  phone : String
  email : String
  adhar : String
  gender : String
  dob : String
  state : String
  city : String
  qualification : String
  gradYear : String
  cgpa : String
  pct : String
  exp : String
  marker : String
deriving DecidableEq, Repr

/-- Model of `normalise_phone` (lines 231-240). -/
def normalisePhone (raw : String) : String :=
  let p := digitsOnly (strip raw)
  if p.data.length = 13 && p.data.take 3 = ['0', '9', '1'] then
    String.mk (p.data.drop 3)
  else if p.data.length = 12 && p.data.take 2 = ['9', '1'] then
    String.mk (p.data.drop 2)
  else if p.data.length = 11 && p.data.take 1 = ['0'] then
    String.mk (p.data.drop 1)
  else p

/-- Column standardisation of lines 223-245. -/
def normaliseRow (r : Row) : Row :=
  { r with
    firstName := title (strip r.firstName)
    lastName := title (strip r.lastName)
    email := lower (strip r.email)
    phone := normalisePhone r.phone
    adhar := strip (digitsOnly r.adhar)
    state := title (strip r.state)
    city := title (strip r.city) }

/-- The normalised email used to key a raw row (`strip().lower()` of the
email cell; the loop of line 322 recomputes it on the already-normalised
column, where it is the identity). -/
def rowKey (r : Row) : String := lower (strip r.email)

/-! ### Eligibility classifier (lines 329-459) -/

/-- One structured validation reason; each constructor corresponds to
exactly one `hard_failures.append` / `soft_failures.append` site. -/
inductive Reason
  | missing (field : String)
  | invalidEmail (email : String)
  | duplicateEmail (email : String)
  | invalidPhone (phone : String)
  | invalidAadhaar (adhar : String)
  | duplicateAadhaar (adhar : String)
  | pctOutOfRange (v : Frac)
  | pctBelowMin (v : Frac)
  | pctSlightlyBelow (v : Frac)
  | invalidPct (raw : String)
  | cgpaOutOfRange (v : Frac)
  | cgpaBelowMin (v : Frac)
  | cgpaSlightlyBelow (v : Frac)
  | invalidCgpa (raw : String)
  | gradYearOutOfRange (y : Int)
  | invalidGradYear
  | expOutOfRange (v : Frac)
  | invalidExp (raw : String)
deriving DecidableEq, Repr

/-- The mandatory fields with their cell values (lines 50-54). -/
def mandatoryPairs (r : Row) : List (String × String) :=
  [("First Name", r.firstName), ("Last Name", r.lastName),
   ("Phone Number", r.phone), ("Email Address", r.email),
   ("Adhar Number", r.adhar), ("Gender", r.gender),
   ("Date of Birth", r.dob), ("State", r.state), ("City", r.city),
   ("Highest Qualification", r.qualification),
   ("Graduation Year", r.gradYear), ("CGPA", r.cgpa),
   ("Total Percentage", r.pct)]

/-- Test of lines 334-335: empty after strip, or a null-ish
placeholder. -/
def isMissing (v : String) : Bool :=
  let val := strip v
  val == "" || lower val == "nan" || lower val == "none"

/-- The mandatory-field loop of lines 333-336. -/
def mandatoryHard (r : Row) : List Reason :=
  (mandatoryPairs r).filterMap fun p =>
    if isMissing p.2 then some (Reason.missing p.1) else none

/-- Percentage rule (lines 365-381). -/
def pctCheck (cfg : Config) (raw : String) : List Reason × List Reason :=
  let pr := strip raw
  if pr != "" && lower pr != "nan" && lower pr != "none" then
    match parseFloat pr with
    | some pct =>
      if !(Frac.le ⟨0, 1⟩ pct && Frac.le pct ⟨100, 1⟩) then
        ([Reason.pctOutOfRange pct], [])
      else if Frac.lt pct (Frac.sub cfg.minPct cfg.bufPct) then
        ([Reason.pctBelowMin pct], [])
      else if Frac.lt pct cfg.minPct then
        ([], [Reason.pctSlightlyBelow pct])
      else ([], [])
    | none => ([Reason.invalidPct pr], [])
  else ([], [])

/-- CGPA rule (lines 384-400). -/
def cgpaCheck (cfg : Config) (raw : String) : List Reason × List Reason :=
  let cr := strip raw
  if cr != "" && lower cr != "nan" && lower cr != "none" then
    match parseFloat cr with
    | some cgpa =>
      if !(Frac.le ⟨0, 1⟩ cgpa && Frac.le cgpa ⟨10, 1⟩) then
        ([Reason.cgpaOutOfRange cgpa], [])
      else if Frac.lt cgpa (Frac.sub cfg.minCgpa cfg.bufCgpa) then
        ([Reason.cgpaBelowMin cgpa], [])
      else if Frac.lt cgpa cfg.minCgpa then
        ([], [Reason.cgpaSlightlyBelow cgpa])
      else ([], [])
    | none => ([Reason.invalidCgpa cr], [])
  else ([], [])

/-- Graduation-year rule (lines 403-410): an empty cell falls back to
`0` via `str(...).strip() or 0`. -/
def gradYearCheck (cfg : Config) (raw : String) : List Reason :=
  let t := strip raw
  match (if t == "" then some 0 else parseIntStr t) with
  | some y =>
    if !(decide (cfg.gradYrMin ≤ y) && decide (y ≤ cfg.gradYrMax)) then
      [Reason.gradYearOutOfRange y]
    else []
  | none => [Reason.invalidGradYear]

/-- Experience rule (lines 413-422). -/
def expCheck (cfg : Config) (raw : String) : List Reason :=
  let er := strip raw
  if er != "" && lower er != "nan" && lower er != "none" then
    match parseFloat er with
    | some e =>
      if Frac.lt e ⟨0, 1⟩ || Frac.lt cfg.maxExp e then
        [Reason.expOutOfRange e]
      else []
    | none => [Reason.invalidExp er]
  else []

/-- Result of validating one row. -/
structure VOut where
  hard : List Reason
  soft : List Reason
  seenE : List String
  seenA : List String
deriving DecidableEq, Repr

/-- The per-row rule cascade of lines 329-422, in source order.  `em`
is the `row_email` of line 322; the seen-sets grow exactly where the
script's `else: seen.add(...)` branches run. -/
def classify (cfg : Config) (sE sA : List String) (em : String) (r : Row) : VOut :=
  let mand := mandatoryHard r
  let h2 := if em != "" && !emailFormatOk em then [Reason.invalidEmail em] else []
  let h3 := if sE.contains em then [Reason.duplicateEmail em] else []
  let sE2 := if sE.contains em then sE else sE ++ [em]
  let phone := strip r.phone
  let h4 := if phone != "" && !phoneOk phone then [Reason.invalidPhone phone] else []
  let adhar := strip r.adhar
  let h5 := if adhar != "" && !adharOk adhar then [Reason.invalidAadhaar adhar] else []
  let h6 := if sA.contains adhar then [Reason.duplicateAadhaar adhar] else []
  let sA2 := if sA.contains adhar then sA else sA ++ [adhar]
  let pcs := pctCheck cfg r.pct
  let ccs := cgpaCheck cfg r.cgpa
  let h9 := gradYearCheck cfg r.gradYear
  let h10 := expCheck cfg r.exp
  { hard := mand ++ h2 ++ h3 ++ h4 ++ h5 ++ h6 ++ pcs.1 ++ ccs.1 ++ h9 ++ h10
    soft := pcs.2 ++ ccs.2
    seenE := sE2
    seenA := sA2 }

/-- Dispositions of the routing block of lines 436-459. -/
inductive Disp
  | accept
  | reject
  | exception
deriving DecidableEq, Repr

/-- Routing precedence: hard reasons force Reject and are the recorded
reasons; otherwise soft reasons force Exception; otherwise Accept. -/
def route (hard soft : List Reason) : Disp × List Reason :=
  if !hard.isEmpty then (Disp.reject, hard)
  else if !soft.isEmpty then (Disp.exception, soft)
  else (Disp.accept, [])

/-! ### The classification batch (lines 270-513) -/

/-- The `already_processed` set of lines 277-287: the normalised email
of every raw row whose `Pipeline Status` cell is non-blank. -/
def alreadyProcessed (rows : List Row) : List String :=
  rows.filterMap fun r =>
    if strip r.marker == "" then none else some (rowKey r)

/-- Helper for `lastIdxOfEmail`: index of the last row (counting from
`k`) whose normalised email is `e`. -/
def lastIdxAux (e : String) (k : Nat) : List Row → Option Nat
  | [] => none
  | r :: rs =>
    match lastIdxAux e (k + 1) rs with
    | some j => some j
    | none => if rowKey r == e then some k else none

/-- The `email_to_sheet_row` map of lines 309-315: built by forward
iteration, so a repeated email keeps the LAST row number.  (Sheet rows
are 1-based with a header; the model uses 0-based data indices, an
order-preserving renaming of the addresses.) -/
def lastIdxOfEmail (rows : List Row) (e : String) : Option Nat :=
  lastIdxAux e 0 rows

/-- One classified output row. -/
structure OutRow where
  row : Row
  reasons : List Reason
deriving DecidableEq, Repr

/-- Accumulator of the classification loop: the three bucket lists, the
two seen-sets, and the batched `Pipeline Status` updates. -/
structure BatchState where
  clean : List OutRow
  rejected : List OutRow
  exceptionRows : List OutRow
  seenE : List String
  seenA : List String
  updates : List (Nat × String)
deriving DecidableEq, Repr

/-- Queue one `Pipeline Status` cell write for the sheet row the email
resolves to (`if sheet_row:` of lines 440-441 and friends — an email
absent from the map queues nothing). -/
def addUpdate (e2r : String → Option Nat) (ups : List (Nat × String)) (em s : String) :
    List (Nat × String) :=
  match e2r em with
  | some i => ups ++ [(i, s)]
  | none => ups

/-- The routing block of lines 436-459 applied to one validated row:
append the row to the bucket its disposition selects, carry the grown
seen-sets, and queue the matching marker update. -/
def applyRoute (e2r : String → Option Nat) (st : BatchState) (r : Row) (v : VOut) :
    Disp × List Reason → BatchState
  | (Disp.reject, rs) =>
    { st with rejected := st.rejected ++ [⟨r, rs⟩], seenE := v.seenE, seenA := v.seenA,
              updates := addUpdate e2r st.updates r.email "Processed - Rejected" }
  | (Disp.exception, rs) =>
    { st with exceptionRows := st.exceptionRows ++ [⟨r, rs⟩], seenE := v.seenE,
              seenA := v.seenA,
              updates := addUpdate e2r st.updates r.email "Processed - Exception" }
  | (Disp.accept, _) =>
    { st with clean := st.clean ++ [⟨r, []⟩], seenE := v.seenE, seenA := v.seenA,
              updates := addUpdate e2r st.updates r.email "Processed - Clean" }

/-- One iteration of the loop of lines 321-459: skip rows whose
normalised email (`row_email` of line 322, already the identity on the
normalised column) is in the processed set, otherwise validate the
normalised row and route it. -/
def processRow (cfg : Config) (ap : List String) (e2r : String → Option Nat)
    (st : BatchState) (r0 : Row) : BatchState :=
  if ap.contains (rowKey r0) then st
  else
    applyRoute e2r st (normaliseRow r0)
      (classify cfg st.seenE st.seenA (rowKey r0) (normaliseRow r0))
      (route (classify cfg st.seenE st.seenA (rowKey r0) (normaliseRow r0)).hard
             (classify cfg st.seenE st.seenA (rowKey r0) (normaliseRow r0)).soft)

/-- The `seen_adhars` seed of lines 300-305: every (stripped) Aadhaar
value already present in the existing Clean / Rejected / Exception
tables. -/
def seedAdhars (cleanT rejT exT : List Row) : List String :=
  (cleanT ++ rejT ++ exT).map fun r => strip r.adhar

/-- Steps 2's whole classification pass over the raw snapshot:
`seen_emails` is seeded with `already_processed` (line 297),
`seen_adhars` with `seedA`, and the loop folds over the rows in sheet
order. -/
def runBatch (cfg : Config) (seedA : List String) (rows : List Row) : BatchState :=
  rows.foldl
    (processRow cfg (alreadyProcessed rows) (lastIdxOfEmail rows))
    ⟨[], [], [], alreadyProcessed rows, seedA, []⟩

/-- Final value of one marker cell after the batched sparse update of
lines 461-472 (later writes to the same cell win). -/
def markerAfter (ups : List (Nat × String)) (i : Nat) (m : String) : String :=
  ups.foldl (fun acc p => if p.1 == i then p.2 else acc) m

/-- Helper for `applyUpdates`, threading the index offset. -/
def applyUpdatesAux (ups : List (Nat × String)) (k : Nat) : List Row → List Row
  | [] => []
  | r :: rs =>
    { r with marker := markerAfter ups k r.marker } :: applyUpdatesAux ups (k + 1) rs

/-- The raw sheet after the batched `Pipeline Status` write-back. -/
def applyUpdates (rows : List Row) (ups : List (Nat × String)) : List Row :=
  applyUpdatesAux ups 0 rows

/-! ### Exception reconciliation (lines 521-634)

Step 3 normalises the `Status` column in memory, keeps the rows whose
status is `approved`, drops those whose email the live Clean table
already holds, appends the genuinely new ones to Clean Data — and only
then, inside the `if not truly_new.empty:` branch, rewrites the
Exception tab to the non-approved remainder.  When the approved rows
are all already in Clean the rewrite is skipped and the tab keeps its
previous contents. -/

/-- One Exception-tab row, abstracted to the two columns Step 3 reads
(the reviewer `Status` and the email key). -/
structure ExRow where
  email : String
  status : String
deriving DecidableEq, Repr

/-- Step 3's effect on persistent state: returns the Exception tab
contents after the step and the emails appended to Clean Data. -/
def reconcile (exTab : List ExRow) (cleanEmails : List String) :
    List ExRow × List String :=
  if exTab.isEmpty then (exTab, [])
  else
    let ex2 := exTab.map fun r => { r with status := lower (strip r.status) }
    let approved := ex2.filter fun r => r.status == "approved"
    if approved.isEmpty then (exTab, [])
    else
      let approvedN := approved.map fun r => { r with email := lower (strip r.email) }
      let trulyNew := approvedN.filter fun r => !cleanEmails.contains r.email
      if trulyNew.isEmpty then (exTab, [])
      else
        (ex2.filter (fun r => r.status != "approved"), trulyNew.map (fun r => r.email))

/-! ### Score validation and deduplication (lines 647-703) -/

/-- One raw external score row: the `Email ID` cell and the raw
`Test Score` cell. -/
structure ScoreRow where
  email : String
  score : String
deriving DecidableEq, Repr

/-- Lines 657-673: coerce the score column to numeric (`none` models
`NaN`), keep the rows with a value in `[0, 100]`, and normalise the
email.  A row outside that set is invalid and is dropped before the
merge. -/
def validScores (t : List ScoreRow) : List (String × Frac) :=
  t.filterMap fun r =>
    match parseFloat r.score with
    | some q =>
      if Frac.le ⟨0, 1⟩ q && Frac.le q ⟨100, 1⟩ then
        some (lower (strip r.email), q)
      else none
    | none => none

/-- Number of rows reported in the invalid-score diagnostic of
lines 659-667. -/
def invalidScoreCount (t : List ScoreRow) : Nat :=
  (t.filter fun r =>
    match parseFloat r.score with
    | some q => !(Frac.le ⟨0, 1⟩ q && Frac.le q ⟨100, 1⟩)
    | none => true).length

/-- Insert one scored row into a list sorted by descending score. -/
def insertDesc (p : String × Frac) : List (String × Frac) → List (String × Frac)
  | [] => [p]
  | q :: qs => if Frac.le q.2 p.2 then p :: q :: qs else q :: insertDesc p qs

/-- Sort by `Test Score` descending (line 678; the tie order among equal
scores is unspecified in the source, pandas' unstable quicksort). -/
def sortDesc : List (String × Frac) → List (String × Frac)
  | [] => []
  | p :: ps => insertDesc p (sortDesc ps)

/-- `drop_duplicates(subset=["Email ID"], keep="first")` (line 679). -/
def dropDupFirstAux (seen : List String) : List (String × Frac) → List (String × Frac)
  | [] => []
  | p :: ps =>
    if seen.contains p.1 then dropDupFirstAux seen ps
    else p :: dropDupFirstAux (p.1 :: seen) ps

/-- The deduplicated score table `test_slim` (lines 676-681): one row
per email, the first row of the descending sort. -/
def testSlim (t : List ScoreRow) : List (String × Frac) :=
  dropDupFirstAux [] (sortDesc (validScores t))

/-! ### Run record (lines 196-208 and 810-861) -/

/-- The run-log row fields the error-handling claims are about. -/
structure RunRecord where
  rawRowsRead : Nat
  newRowsFound : Nat
  cleanWritten : Nat
  rejectedWritten : Nat
  exceptionWritten : Nat
  errors : String
  status : String
deriving DecidableEq, Repr

/-- Line 819: the concatenated error text. -/
def concatErrors (es : List String) : String :=
  if es.isEmpty then "None" else String.intercalate "; " es

/-- Control-flow skeleton of the script: Step 1 `exit()`s before any
run log when the raw table is empty (lines 206-208) and aborts on an
unguarded threshold conversion error (lines 211-220); afterwards
Steps 3-5 are each wrapped in `try/except` that only appends to the
error list (`e3`/`e4`/`e5` are the messages of steps that raised), and
Step 6 always derives a status and builds one run-log row
(lines 815-836).  The result is the run record handed to the log sheet,
`none` when the run ends before reaching Step 6. -/
def pipeline (rows : List Row) (cfg : String → Option String) (seedA : List String)
    (e3 e4 e5 : Option String) : Option RunRecord :=
  if rows.isEmpty then none
  else
    match resolveConfig cfg with
    | Except.error _ => none
    | Except.ok c =>
      let st := runBatch c seedA rows
      let newFound := st.clean.length + st.rejected.length + st.exceptionRows.length
      let errs := [e3, e4, e5].filterMap id
      some
        { rawRowsRead := rows.length
          newRowsFound := newFound
          cleanWritten := st.clean.length
          rejectedWritten := st.rejected.length
          exceptionWritten := st.exceptionRows.length
          errors := concatErrors errs
          status :=
            if !errs.isEmpty && newFound == 0 then "Failed"
            else if !errs.isEmpty then "Partial"
            else "Success" }

/-- A config mapping with one malformed numeric value. -/
def cfgOneBad : String → Option String :=
  fun k => if k = "Min Percentage" then some "sixty" else none

/-- A concrete raw row that passes every validation rule under the
default thresholds, used by several concrete instances below. -/
def rowGood : Row :=
  ⟨"Asha", "Rao", "9876543210", "asha@example.com", "123456789012", "F",
   "2000-01-01", "MH", "Pune", "BE", "2020", "8.2", "75", "", ""⟩

/-! ### Basic bridging lemmas -/

theorem contains_of_mem {l : List String} {a : String} (h : a ∈ l) :
    l.contains a = true := by simpa using h

theorem mem_of_contains {l : List String} {a : String} (h : l.contains a = true) :
    a ∈ l := by simpa using h

theorem isEmpty_false_of_ne_nil {α : Type} {l : List α} (h : l ≠ []) :
    l.isEmpty = false := by
  cases l with
  | nil => cases h rfl
  | cons a t => rfl

@[simp] theorem normaliseRow_email (r : Row) : (normaliseRow r).email = rowKey r := rfl

@[simp] theorem rowKey_set_marker (r : Row) (m : String) :
    rowKey { r with marker := m } = rowKey r := rfl

/-! ### Fraction order facts -/

theorem frac_le_refl (a : Frac) : Frac.le a a = true := by
  simp [Frac.le]

theorem frac_le_total (a b : Frac) : Frac.le a b = true ∨ Frac.le b a = true := by
  simp only [Frac.le, decide_eq_true_eq]
  exact Int.le_total _ _

theorem frac_le_trans {a b c : Frac} (h1 : Frac.le a b = true) (h2 : Frac.le b c = true)
    (hb : 0 < b.den) : Frac.le a c = true := by
  simp only [Frac.le, decide_eq_true_eq] at h1 h2 ⊢
  have hb' : (0 : Int) < (b.den : Int) := by exact_mod_cast hb
  have ha' : (0 : Int) ≤ (a.den : Int) := Int.ofNat_nonneg _
  have hc' : (0 : Int) ≤ (c.den : Int) := Int.ofNat_nonneg _
  have t1 := mul_le_mul_of_nonneg_right h1 hc'
  have t2 := mul_le_mul_of_nonneg_right h2 ha'
  have : a.num * (c.den : Int) * (b.den : Int) ≤ c.num * (a.den : Int) * (b.den : Int) := by
    nlinarith
  exact le_of_mul_le_mul_right this hb'

theorem frac_le_iff {a b : Frac} (ha : 0 < a.den) (hb : 0 < b.den) :
    Frac.le a b = true ↔ a.toRat ≤ b.toRat := by
  have ha' : (0 : ℚ) < (a.den : ℚ) := by exact_mod_cast ha
  have hb' : (0 : ℚ) < (b.den : ℚ) := by exact_mod_cast hb
  simp only [Frac.le, Frac.toRat, decide_eq_true_eq]
  rw [div_le_div_iff₀ ha' hb']
  constructor
  · intro h; exact_mod_cast h
  · intro h; exact_mod_cast h

theorem frac_lt_iff {a b : Frac} (ha : 0 < a.den) (hb : 0 < b.den) :
    Frac.lt a b = true ↔ a.toRat < b.toRat := by
  have ha' : (0 : ℚ) < (a.den : ℚ) := by exact_mod_cast ha
  have hb' : (0 : ℚ) < (b.den : ℚ) := by exact_mod_cast hb
  simp only [Frac.lt, Frac.toRat, decide_eq_true_eq]
  rw [div_lt_div_iff₀ ha' hb']
  constructor
  · intro h; exact_mod_cast h
  · intro h; exact_mod_cast h

theorem frac_sub_den {a b : Frac} (ha : 0 < a.den) (hb : 0 < b.den) :
    0 < (Frac.sub a b).den := Nat.mul_pos ha hb

theorem frac_sub_toRat {a b : Frac} (ha : 0 < a.den) (hb : 0 < b.den) :
    (Frac.sub a b).toRat = a.toRat - b.toRat := by
  have ha' : ((a.den : ℚ)) ≠ 0 := by positivity
  have hb' : ((b.den : ℚ)) ≠ 0 := by positivity
  simp only [Frac.sub, Frac.toRat]
  push_cast
  field_simp
  ring

theorem parseUnsigned_posDen {cs : List Char} {q : Frac}
    (h : parseUnsigned cs = some q) : 0 < q.den := by
  unfold parseUnsigned at h
  rcases hs : splitFirst '.' cs with _ | ⟨a, b⟩ <;> simp only [hs] at h
  · by_cases hb : (!cs.isEmpty && cs.all Char.isDigit) = true
    · rw [if_pos hb] at h
      have hq := Option.some.inj h
      rw [← hq]
      exact Nat.one_pos
    · rw [if_neg hb] at h
      exact Option.noConfusion h
  · by_cases hb : ((!a.isEmpty || !b.isEmpty) && a.all Char.isDigit && b.all Char.isDigit) = true
    · rw [if_pos hb] at h
      have hq := Option.some.inj h
      rw [← hq]
      exact Nat.pos_pow_of_pos _ (by norm_num)
    · rw [if_neg hb] at h
      exact Option.noConfusion h

theorem parseFloat_posDen {s : String} {q : Frac}
    (h : parseFloat s = some q) : 0 < q.den := by
  unfold parseFloat at h
  rcases hd : (strip s).data with _ | ⟨c, rest⟩ <;> simp only [hd] at h
  · exact Option.noConfusion h
  · by_cases hc : c = '-'
    · rw [if_pos hc] at h
      cases hp : parseUnsigned rest with
      | none => rw [hp] at h; exact Option.noConfusion h
      | some q0 =>
        rw [hp] at h
        have hq := Option.some.inj h
        have := parseUnsigned_posDen hp
        rw [← hq]
        exact this
    · rw [if_neg hc] at h
      by_cases hc2 : c = '+'
      · rw [if_pos hc2] at h
        exact parseUnsigned_posDen h
      · rw [if_neg hc2] at h
        exact parseUnsigned_posDen h

/-! ### C1 — the run always reaches the Run Recorder? -/

/-- Claim C1, counterexample: with an empty raw table the script hits the
`exit()` of line 208 before the Run Recorder, so no Run Record row is
persisted for that run — contradicting the claim that every run,
including ones over an empty raw input table, writes exactly one Run
Record. -/
theorem C1_empty_raw_no_run_record :
    pipeline [] (fun _ => none) [] none none none = none := by decide

/-- Claim C1 as amended: on every run whose raw table is non-empty and
whose configured thresholds resolve, the pipeline reaches the Run
Recorder and hands it exactly one Run Record regardless of Step 3/4/5
failures, with the errors concatenated and the status derived
("Failed" when there are errors and no new rows; "Success" when there
are none); a run with an empty raw table (or an unparsable threshold)
exits before the Run Recorder and persists nothing. -/
theorem C1_run_record_when_raw_nonempty (rows : List Row)
    (cfg : String → Option String) (seedA : List String)
    (e3 e4 e5 : Option String) (c : Config)
    (hne : rows ≠ []) (hc : resolveConfig cfg = Except.ok c) :
    ∃ rec, pipeline rows cfg seedA e3 e4 e5 = some rec
      ∧ rec.errors = concatErrors ([e3, e4, e5].filterMap id)
      ∧ (([e3, e4, e5].filterMap id) ≠ [] → rec.newRowsFound = 0 → rec.status = "Failed")
      ∧ (([e3, e4, e5].filterMap id) = [] → rec.status = "Success") := by
  cases rows with
  | nil => cases hne rfl
  | cons r rs =>
    simp only [pipeline, List.isEmpty_cons, Bool.false_eq_true, if_false, hc]
    refine ⟨_, rfl, rfl, ?_, ?_⟩
    · intro herr hnf
      simp only at hnf
      simp [hnf, herr, List.isEmpty_eq_true]
    · intro herr
      simp [herr]

/-- Witness for `C1_run_record_when_raw_nonempty`: a concrete run with
one raw row and all three guarded steps failing still produces a run
record. -/
theorem C1_run_record_when_raw_nonempty_witness :
    ∃ rec, pipeline
        [⟨"Asha", "Rao", "9876543210", "asha@example.com", "123456789012", "F",
          "2000-01-01", "MH", "Pune", "BE", "2020", "8.2", "75", "", ""⟩]
        (fun _ => none) [] (some "Step 3 error: boom") (some "Step 4 error: boom")
        (some "Step 5 error: boom")
      = some rec
      ∧ rec.errors = concatErrors (["Step 3 error: boom", "Step 4 error: boom",
          "Step 5 error: boom"])
      ∧ (rec.newRowsFound = 0 → rec.status = "Failed") := by
  obtain ⟨rec, h1, h2, h3, _⟩ :=
    C1_run_record_when_raw_nonempty
      [⟨"Asha", "Rao", "9876543210", "asha@example.com", "123456789012", "F",
        "2000-01-01", "MH", "Pune", "BE", "2020", "8.2", "75", "", ""⟩]
      (fun _ => none) [] (some "Step 3 error: boom") (some "Step 4 error: boom")
      (some "Step 5 error: boom") defaultConfig (by simp) (by rfl)
  exact ⟨rec, h1, h2, h3 (by simp)⟩

/-! ### C2 — threshold resolution never fails? -/

/-- Claim C2, counterexample: a malformed numeric string for a present
parameter does NOT fall back to the default — the unguarded `float()`
of line 215 raises and threshold resolution fails. -/
theorem C2_malformed_value_raises :
    exOk (resolveConfig cfgOneBad) = false := by decide

theorem getFloat_spec (cfg : String → Option String) (k : String) (d : Frac)
    (h : ∀ s, cfg k = some s → (parseFloat s).isSome = true) :
    ∃ q, getFloat cfg k d = Except.ok q ∧ (cfg k = none → q = d) := by
  cases hc : cfg k with
  | none =>
    refine ⟨d, ?_, fun _ => rfl⟩
    unfold getFloat
    simp only [hc]
  | some s =>
    have hp := h s hc
    cases hps : parseFloat s with
    | none => rw [hps] at hp; cases hp
    | some q =>
      refine ⟨q, ?_, ?_⟩
      · unfold getFloat
        simp only [hc, hps]
      · intro hn
        exact Option.noConfusion hn

theorem getInt_spec (cfg : String → Option String) (k : String) (d : Int)
    (h : ∀ s, cfg k = some s → (parseIntStr s).isSome = true) :
    ∃ n, getInt cfg k d = Except.ok n ∧ (cfg k = none → n = d) := by
  cases hc : cfg k with
  | none =>
    refine ⟨d, ?_, fun _ => rfl⟩
    unfold getInt
    simp only [hc]
  | some s =>
    have hp := h s hc
    cases hps : parseIntStr s with
    | none => rw [hps] at hp; cases hp
    | some n =>
      refine ⟨n, ?_, ?_⟩
      · unfold getInt
        simp only [hc, hps]
      · intro hn
        exact Option.noConfusion hn

/-- Claim C2 as amended: resolution succeeds exactly when every present
recognised parameter parses; an absent parameter then resolves to its
documented default.  A present malformed value makes resolution raise
(see `C2_malformed_value_raises`) instead of defaulting. -/
theorem C2_defaults_when_absent (cfg : String → Option String)
    (h1 : ∀ s, cfg "Exception Buffer PCT" = some s → (parseFloat s).isSome = true)
    (h2 : ∀ s, cfg "Exception Buffer CGPA" = some s → (parseFloat s).isSome = true)
    (h3 : ∀ s, cfg "Min Percentage" = some s → (parseFloat s).isSome = true)
    (h4 : ∀ s, cfg "Min CGPA" = some s → (parseFloat s).isSome = true)
    (h5 : ∀ s, cfg "Graduation Year Min" = some s → (parseIntStr s).isSome = true)
    (h6 : ∀ s, cfg "Graduation Year Max" = some s → (parseIntStr s).isSome = true)
    (h7 : ∀ s, cfg "Max Experience" = some s → (parseFloat s).isSome = true)
    (h8 : ∀ s, cfg "Min Test Score" = some s → (parseFloat s).isSome = true) :
    ∃ c, resolveConfig cfg = Except.ok c
      ∧ (cfg "Exception Buffer PCT" = none → c.bufPct = ⟨1, 1⟩)
      ∧ (cfg "Exception Buffer CGPA" = none → c.bufCgpa = ⟨1, 10⟩)
      ∧ (cfg "Min Percentage" = none → c.minPct = ⟨60, 1⟩)
      ∧ (cfg "Min CGPA" = none → c.minCgpa = ⟨6, 1⟩)
      ∧ (cfg "Graduation Year Min" = none → c.gradYrMin = 2010)
      ∧ (cfg "Graduation Year Max" = none → c.gradYrMax = 2025)
      ∧ (cfg "Max Experience" = none → c.maxExp = ⟨40, 1⟩)
      ∧ (cfg "Min Test Score" = none → c.minTestScore = ⟨40, 1⟩) := by
  obtain ⟨q1, e1, d1⟩ := getFloat_spec cfg "Exception Buffer PCT" ⟨1, 1⟩ h1
  obtain ⟨q2, e2, d2⟩ := getFloat_spec cfg "Exception Buffer CGPA" ⟨1, 10⟩ h2
  obtain ⟨q3, e3, d3⟩ := getFloat_spec cfg "Min Percentage" ⟨60, 1⟩ h3
  obtain ⟨q4, e4, d4⟩ := getFloat_spec cfg "Min CGPA" ⟨6, 1⟩ h4
  obtain ⟨n5, e5, d5⟩ := getInt_spec cfg "Graduation Year Min" 2010 h5
  obtain ⟨n6, e6, d6⟩ := getInt_spec cfg "Graduation Year Max" 2025 h6
  obtain ⟨q7, e7, d7⟩ := getFloat_spec cfg "Max Experience" ⟨40, 1⟩ h7
  obtain ⟨q8, e8, d8⟩ := getFloat_spec cfg "Min Test Score" ⟨40, 1⟩ h8
  refine ⟨⟨q1, q2, q3, q4, n5, n6, q7, q8⟩, ?_, d1, d2, d3, d4, d5, d6, d7, d8⟩
  simp only [resolveConfig, e1, e2, e3, e4, e5, e6, e7, e8, bind, Except.bind, pure,
    Except.pure]

/-- Witness for `C2_defaults_when_absent`: the empty config mapping
resolves to every documented default. -/
theorem C2_defaults_when_absent_witness :
    ∃ c, resolveConfig (fun _ => none) = Except.ok c ∧ c.bufPct = ⟨1, 1⟩
      ∧ c.minCgpa = ⟨6, 1⟩ := by
  obtain ⟨c, hok, hd1, _, _, hd4, _⟩ :=
    C2_defaults_when_absent (fun _ => none)
      (fun s h => by cases h) (fun s h => by cases h) (fun s h => by cases h)
      (fun s h => by cases h) (fun s h => by cases h) (fun s h => by cases h)
      (fun s h => by cases h) (fun s h => by cases h)
  exact ⟨c, hok, hd1 rfl, hd4 rfl⟩

/-! ### C5 — the Exception rewrite after approvals -/

/-- Claim C5, counterexample: an Exception table holding one Approved
row whose email is already in Clean Data is left completely unchanged —
the rewrite of lines 622-628 sits inside the `if not truly_new.empty:`
branch, so the Approved row is NOT removed, contradicting the claim
that the table is always rewritten to the non-approved remainder. -/
theorem C5_rewrite_skipped_when_all_approved_known :
    reconcile [⟨"a@x.com", "Approved"⟩] ["a@x.com"]
        = ([⟨"a@x.com", "Approved"⟩], [])
      ∧ lower (strip "Approved") = "approved" := by decide

/-- Claim C5 as amended: when at least one Approved row's email is NOT
already in Clean Data, the Exception table is rewritten to exactly the
rows whose (normalised) status is not "approved"; but when every
Approved row's email is already in Clean Data, nothing is appended to
Clean and the Exception table keeps its previous contents, Approved
rows included. -/
theorem C5_exception_rewrite (exTab : List ExRow) (cleanEmails : List String)
    (hap : ∃ r ∈ exTab, lower (strip r.status) = "approved") :
    ((∃ r ∈ exTab, lower (strip r.status) = "approved"
        ∧ cleanEmails.contains (lower (strip r.email)) = false) →
      (reconcile exTab cleanEmails).1
        = (exTab.map fun r => { r with status := lower (strip r.status) }).filter
            (fun r => r.status != "approved"))
    ∧ ((∀ r ∈ exTab, lower (strip r.status) = "approved" →
          cleanEmails.contains (lower (strip r.email)) = true) →
      reconcile exTab cleanEmails = (exTab, [])) := by
  obtain ⟨r0, hr0, hs0⟩ := hap
  have hne : exTab.isEmpty = false := by
    cases exTab with
    | nil => cases hr0
    | cons a l => rfl
  have hapne :
      ((exTab.map fun r => { r with status := lower (strip r.status) }).filter
        (fun r => r.status == "approved")).isEmpty = false := by
    have hmem : ({ r0 with status := lower (strip r0.status) } : ExRow)
        ∈ (exTab.map fun r => { r with status := lower (strip r.status) }).filter
            (fun r => r.status == "approved") := by
      rw [List.mem_filter]
      exact ⟨List.mem_map_of_mem _ hr0, by simp [hs0]⟩
    cases hl : (exTab.map fun r => { r with status := lower (strip r.status) }).filter
        (fun r => r.status == "approved") with
    | nil => rw [hl] at hmem; cases hmem
    | cons a l => rfl
  constructor
  · rintro ⟨r1, hr1, hs1, hc1⟩
    have htn :
        ((((exTab.map fun r => { r with status := lower (strip r.status) }).filter
            (fun r => r.status == "approved")).map
              fun r => { r with email := lower (strip r.email) }).filter
          (fun r => !cleanEmails.contains r.email)).isEmpty = false := by
      have hmem1 : ({ r1 with status := lower (strip r1.status) } : ExRow)
          ∈ (exTab.map fun r => { r with status := lower (strip r.status) }).filter
              (fun r => r.status == "approved") := by
        rw [List.mem_filter]
        exact ⟨List.mem_map_of_mem _ hr1, by simp [hs1]⟩
      have hmem2 : ({ { r1 with status := lower (strip r1.status) } with
            email := lower (strip r1.email) } : ExRow)
          ∈ (((exTab.map fun r => { r with status := lower (strip r.status) }).filter
              (fun r => r.status == "approved")).map
                fun r => { r with email := lower (strip r.email) }).filter
            (fun r => !cleanEmails.contains r.email) := by
        rw [List.mem_filter]
        exact ⟨List.mem_map_of_mem _ hmem1, by simpa using hc1⟩
      cases hl : (((exTab.map fun r => { r with status := lower (strip r.status) }).filter
          (fun r => r.status == "approved")).map
            fun r => { r with email := lower (strip r.email) }).filter
          (fun r => !cleanEmails.contains r.email) with
      | nil => rw [hl] at hmem2; cases hmem2
      | cons a l => rfl
    simp only [reconcile, hne, hapne, htn, Bool.false_eq_true, if_false]
  · intro hall
    have htn :
        ((((exTab.map fun r => { r with status := lower (strip r.status) }).filter
            (fun r => r.status == "approved")).map
              fun r => { r with email := lower (strip r.email) }).filter
          (fun r => !cleanEmails.contains r.email)) = [] := by
      rw [List.filter_eq_nil_iff]
      intro x hx
      rw [List.mem_map] at hx
      obtain ⟨y, hy, hxy⟩ := hx
      rw [List.mem_filter, List.mem_map] at hy
      obtain ⟨⟨z, hz, hyz⟩, hys⟩ := hy
      have hzs : lower (strip z.status) = "approved" := by
        have : y.status = "approved" := by simpa using hys
        rw [← hyz] at this
        simpa using this
      have hzc := hall z hz hzs
      have hxe : x.email = lower (strip z.email) := by
        rw [← hxy, ← hyz]
      simp only [hxe, hzc, Bool.not_true, Bool.false_eq_true, not_false_eq_true]
    have htn' :
        ((((exTab.map fun r => { r with status := lower (strip r.status) }).filter
            (fun r => r.status == "approved")).map
              fun r => { r with email := lower (strip r.email) }).filter
          (fun r => !cleanEmails.contains r.email)).isEmpty = true := by
      rw [htn]; rfl
    simp only [reconcile, hne, hapne, htn', Bool.false_eq_true, if_false, if_true]

/-- Witness for `C5_exception_rewrite`: one Approved row with a new
email leads to the Exception tab being rewritten without it. -/
theorem C5_exception_rewrite_witness :
    (reconcile [⟨"a@x.com", "Approved"⟩, ⟨"b@y.com", "Pending"⟩] []).1
      = [⟨"b@y.com", "pending"⟩] := by
  have h := C5_exception_rewrite [⟨"a@x.com", "Approved"⟩, ⟨"b@y.com", "Pending"⟩] []
    ⟨⟨"a@x.com", "Approved"⟩, by simp, by decide⟩
  have h1 := h.1 ⟨⟨"a@x.com", "Approved"⟩, by simp, by decide, by decide⟩
  rw [h1]; decide

/-! ### C6 — hard-failure precedence -/

/-- Claim C6, confirmed: any hard reason forces Reject with exactly the
hard reasons recorded (soft ones discarded); no hard but some soft
reason gives Exception with the soft reasons; neither gives Accept. -/
theorem C6_precedence (cfg : Config) (sE sA : List String) (em : String) (r : Row) :
    ((classify cfg sE sA em r).hard ≠ [] →
      route (classify cfg sE sA em r).hard (classify cfg sE sA em r).soft
        = (Disp.reject, (classify cfg sE sA em r).hard))
    ∧ ((classify cfg sE sA em r).hard = [] → (classify cfg sE sA em r).soft ≠ [] →
      route (classify cfg sE sA em r).hard (classify cfg sE sA em r).soft
        = (Disp.exception, (classify cfg sE sA em r).soft))
    ∧ ((classify cfg sE sA em r).hard = [] → (classify cfg sE sA em r).soft = [] →
      route (classify cfg sE sA em r).hard (classify cfg sE sA em r).soft
        = (Disp.accept, [])) := by
  refine ⟨?_, ?_, ?_⟩
  · intro hh
    simp [route, isEmpty_false_of_ne_nil hh]
  · intro hh hs
    simp [route, hh, isEmpty_false_of_ne_nil hs]
  · intro hh hs
    simp [route, hh, hs]

/-- Witness for `C6_precedence`: a row with both a hard violation
(missing gender) and a soft one (CGPA 5.95, inside the default 0.1
buffer below 6.0) is rejected with only the hard reason recorded. -/
theorem C6_precedence_witness :
    route (classify defaultConfig [] [] "asha@example.com"
        (normaliseRow ⟨"Asha", "Rao", "9876543210", "asha@example.com",
          "123456789012", "", "2000-01-01", "MH", "Pune", "BE", "2020",
          "5.95", "75", "", ""⟩)).hard
      (classify defaultConfig [] [] "asha@example.com"
        (normaliseRow ⟨"Asha", "Rao", "9876543210", "asha@example.com",
          "123456789012", "", "2000-01-01", "MH", "Pune", "BE", "2020",
          "5.95", "75", "", ""⟩)).soft
    = (Disp.reject, [Reason.missing "Gender"]) := by
  have h := (C6_precedence defaultConfig [] [] "asha@example.com"
    (normaliseRow ⟨"Asha", "Rao", "9876543210", "asha@example.com",
      "123456789012", "", "2000-01-01", "MH", "Pune", "BE", "2020",
      "5.95", "75", "", ""⟩)).1 (by decide)
  rw [h]; decide

/-! ### Shape of the per-rule outputs -/

theorem mem_mandatoryHard {r : Row} {x : Reason} (h : x ∈ mandatoryHard r) :
    ∃ f, x = Reason.missing f := by
  unfold mandatoryHard at h
  rw [List.mem_filterMap] at h
  obtain ⟨p, _, hp⟩ := h
  by_cases hm : isMissing p.2 = true
  · rw [if_pos hm] at hp
    exact ⟨p.1, (Option.some.inj hp).symm⟩
  · rw [if_neg hm] at hp
    exact Option.noConfusion hp

theorem mem_ite_singleton {c : Prop} [Decidable c] {a x : Reason}
    (h : x ∈ (if c then [a] else [])) : x = a := by
  by_cases hc : c
  · rw [if_pos hc] at h; simpa using h
  · rw [if_neg hc] at h; cases h

theorem mem_ite_nonempty {c : Prop} [Decidable c] {a x : Reason}
    (h : x ∈ (if c then [a] else [])) : c := by
  by_cases hc : c
  · exact hc
  · rw [if_neg hc] at h; cases h

theorem pctCheck_cases (cfg : Config) (raw : String) :
    pctCheck cfg raw = ([], [])
    ∨ (∃ v, pctCheck cfg raw = ([Reason.pctOutOfRange v], []))
    ∨ (∃ v, pctCheck cfg raw = ([Reason.pctBelowMin v], []))
    ∨ (∃ v, pctCheck cfg raw = ([], [Reason.pctSlightlyBelow v]))
    ∨ (∃ s, pctCheck cfg raw = ([Reason.invalidPct s], [])) := by
  simp only [pctCheck]
  by_cases hg : (strip raw != "" && lower (strip raw) != "nan"
      && lower (strip raw) != "none") = true
  · rw [if_pos hg]
    cases hp : parseFloat (strip raw) with
    | none => right; right; right; right; exact ⟨strip raw, rfl⟩
    | some q =>
      simp only []
      by_cases h1 : (!(Frac.le ⟨0, 1⟩ q && Frac.le q ⟨100, 1⟩)) = true
      · rw [if_pos h1]; right; left; exact ⟨q, rfl⟩
      · rw [if_neg h1]
        by_cases h2 : Frac.lt q (Frac.sub cfg.minPct cfg.bufPct) = true
        · rw [if_pos h2]; right; right; left; exact ⟨q, rfl⟩
        · rw [if_neg h2]
          by_cases h3 : Frac.lt q cfg.minPct = true
          · rw [if_pos h3]; right; right; right; left; exact ⟨q, rfl⟩
          · rw [if_neg h3]; left; rfl
  · rw [if_neg hg]; left; rfl

theorem cgpaCheck_cases (cfg : Config) (raw : String) :
    cgpaCheck cfg raw = ([], [])
    ∨ (∃ v, cgpaCheck cfg raw = ([Reason.cgpaOutOfRange v], []))
    ∨ (∃ v, cgpaCheck cfg raw = ([Reason.cgpaBelowMin v], []))
    ∨ (∃ v, cgpaCheck cfg raw = ([], [Reason.cgpaSlightlyBelow v]))
    ∨ (∃ s, cgpaCheck cfg raw = ([Reason.invalidCgpa s], [])) := by
  simp only [cgpaCheck]
  by_cases hg : (strip raw != "" && lower (strip raw) != "nan"
      && lower (strip raw) != "none") = true
  · rw [if_pos hg]
    cases hp : parseFloat (strip raw) with
    | none => right; right; right; right; exact ⟨strip raw, rfl⟩
    | some q =>
      simp only []
      by_cases h1 : (!(Frac.le ⟨0, 1⟩ q && Frac.le q ⟨10, 1⟩)) = true
      · rw [if_pos h1]; right; left; exact ⟨q, rfl⟩
      · rw [if_neg h1]
        by_cases h2 : Frac.lt q (Frac.sub cfg.minCgpa cfg.bufCgpa) = true
        · rw [if_pos h2]; right; right; left; exact ⟨q, rfl⟩
        · rw [if_neg h2]
          by_cases h3 : Frac.lt q cfg.minCgpa = true
          · rw [if_pos h3]; right; right; right; left; exact ⟨q, rfl⟩
          · rw [if_neg h3]; left; rfl
  · rw [if_neg hg]; left; rfl

theorem gradYearCheck_cases (cfg : Config) (raw : String) :
    gradYearCheck cfg raw = []
    ∨ (∃ y, gradYearCheck cfg raw = [Reason.gradYearOutOfRange y])
    ∨ gradYearCheck cfg raw = [Reason.invalidGradYear] := by
  simp only [gradYearCheck]
  cases hm : (if strip raw == "" then some 0 else parseIntStr (strip raw)) with
  | none => right; right; rfl
  | some y =>
    simp only []
    by_cases hr : (!(decide (cfg.gradYrMin ≤ y) && decide (y ≤ cfg.gradYrMax))) = true
    · rw [if_pos hr]; right; left; exact ⟨y, rfl⟩
    · rw [if_neg hr]; left; rfl

theorem expCheck_cases (cfg : Config) (raw : String) :
    expCheck cfg raw = []
    ∨ (∃ v, expCheck cfg raw = [Reason.expOutOfRange v])
    ∨ (∃ s, expCheck cfg raw = [Reason.invalidExp s]) := by
  simp only [expCheck]
  by_cases hg : (strip raw != "" && lower (strip raw) != "nan"
      && lower (strip raw) != "none") = true
  · rw [if_pos hg]
    cases hp : parseFloat (strip raw) with
    | none => right; right; exact ⟨strip raw, rfl⟩
    | some q =>
      simp only []
      by_cases h1 : (Frac.lt q ⟨0, 1⟩ || Frac.lt cfg.maxExp q) = true
      · rw [if_pos h1]; right; left; exact ⟨q, rfl⟩
      · rw [if_neg h1]; left; rfl
  · rw [if_neg hg]; left; rfl

/-! ### C7 — the buffered three-way comparison -/

/-- Claim C7, confirmed: for an in-range value `v` parsed from the cell,
with positive buffers, the CGPA rule yields exactly a soft reason at
`minCgpa − buffer`, a hard reason strictly below it, and no reason at or
above `minCgpa`; the percentage rule behaves the same against `minPct`
and its buffer. -/
theorem C7_buffer_boundary (cfg : Config) (raw : String) (v : Frac)
    (hv : parseFloat (strip raw) = some v)
    (hne : strip raw ≠ "") (hnan : lower (strip raw) ≠ "nan")
    (hnone : lower (strip raw) ≠ "none")
    (hdmc : 0 < cfg.minCgpa.den) (hdbc : 0 < cfg.bufCgpa.den)
    (hdmp : 0 < cfg.minPct.den) (hdbp : 0 < cfg.bufPct.den)
    (hbc : 0 < cfg.bufCgpa.toRat) (hbp : 0 < cfg.bufPct.toRat)
    (h0 : 0 ≤ v.toRat) :
    (v.toRat ≤ 10 →
      ((v.toRat = cfg.minCgpa.toRat - cfg.bufCgpa.toRat →
          cgpaCheck cfg raw = ([], [Reason.cgpaSlightlyBelow v]))
       ∧ (v.toRat < cfg.minCgpa.toRat - cfg.bufCgpa.toRat →
          cgpaCheck cfg raw = ([Reason.cgpaBelowMin v], []))
       ∧ (cfg.minCgpa.toRat ≤ v.toRat → cgpaCheck cfg raw = ([], []))))
    ∧ (v.toRat ≤ 100 →
      ((v.toRat = cfg.minPct.toRat - cfg.bufPct.toRat →
          pctCheck cfg raw = ([], [Reason.pctSlightlyBelow v]))
       ∧ (v.toRat < cfg.minPct.toRat - cfg.bufPct.toRat →
          pctCheck cfg raw = ([Reason.pctBelowMin v], []))
       ∧ (cfg.minPct.toRat ≤ v.toRat → pctCheck cfg raw = ([], [])))) := by
  have hdv : 0 < v.den := parseFloat_posDen hv
  have hguard : (strip raw != "" && lower (strip raw) != "nan"
      && lower (strip raw) != "none") = true := by
    simp [hne, hnan, hnone]
  have h0le : Frac.le ⟨0, 1⟩ v = true := by
    rw [frac_le_iff Nat.one_pos hdv]
    simpa [Frac.toRat] using h0
  constructor
  · intro h10
    have h10le : Frac.le v ⟨10, 1⟩ = true := by
      rw [frac_le_iff hdv Nat.one_pos]
      simpa [Frac.toRat] using h10
    have hred : cgpaCheck cfg raw =
        (if Frac.lt v (Frac.sub cfg.minCgpa cfg.bufCgpa) then
          ([Reason.cgpaBelowMin v], [])
        else if Frac.lt v cfg.minCgpa then ([], [Reason.cgpaSlightlyBelow v])
        else ([], [])) := by
      simp only [cgpaCheck, hguard, if_true, hv, h0le, h10le, Bool.and_self,
        Bool.not_true, Bool.false_eq_true, if_false]
    have hlt1 : Frac.lt v (Frac.sub cfg.minCgpa cfg.bufCgpa) = true
        ↔ v.toRat < cfg.minCgpa.toRat - cfg.bufCgpa.toRat := by
      rw [frac_lt_iff hdv (frac_sub_den hdmc hdbc), frac_sub_toRat hdmc hdbc]
    have hlt2 : Frac.lt v cfg.minCgpa = true ↔ v.toRat < cfg.minCgpa.toRat :=
      frac_lt_iff hdv hdmc
    refine ⟨?_, ?_, ?_⟩
    · intro heq
      have hf1 : Frac.lt v (Frac.sub cfg.minCgpa cfg.bufCgpa) = false := by
        rw [Bool.eq_false_iff]
        intro hb
        exact absurd (hlt1.mp hb) (by rw [heq]; exact lt_irrefl _)
      have ht2 : Frac.lt v cfg.minCgpa = true := by
        rw [hlt2, heq]
        linarith
      rw [hred, hf1, ht2]
      simp
    · intro hlt
      have ht1 : Frac.lt v (Frac.sub cfg.minCgpa cfg.bufCgpa) = true := hlt1.mpr hlt
      rw [hred, ht1]
      simp
    · intro hge
      have hf1 : Frac.lt v (Frac.sub cfg.minCgpa cfg.bufCgpa) = false := by
        rw [Bool.eq_false_iff]
        intro hb
        have := hlt1.mp hb
        linarith
      have hf2 : Frac.lt v cfg.minCgpa = false := by
        rw [Bool.eq_false_iff]
        intro hb
        have := hlt2.mp hb
        linarith
      rw [hred, hf1, hf2]
      simp
  · intro h100
    have h100le : Frac.le v ⟨100, 1⟩ = true := by
      rw [frac_le_iff hdv Nat.one_pos]
      simpa [Frac.toRat] using h100
    have hred : pctCheck cfg raw =
        (if Frac.lt v (Frac.sub cfg.minPct cfg.bufPct) then
          ([Reason.pctBelowMin v], [])
        else if Frac.lt v cfg.minPct then ([], [Reason.pctSlightlyBelow v])
        else ([], [])) := by
      simp only [pctCheck, hguard, if_true, hv, h0le, h100le, Bool.and_self,
        Bool.not_true, Bool.false_eq_true, if_false]
    have hlt1 : Frac.lt v (Frac.sub cfg.minPct cfg.bufPct) = true
        ↔ v.toRat < cfg.minPct.toRat - cfg.bufPct.toRat := by
      rw [frac_lt_iff hdv (frac_sub_den hdmp hdbp), frac_sub_toRat hdmp hdbp]
    have hlt2 : Frac.lt v cfg.minPct = true ↔ v.toRat < cfg.minPct.toRat :=
      frac_lt_iff hdv hdmp
    refine ⟨?_, ?_, ?_⟩
    · intro heq
      have hf1 : Frac.lt v (Frac.sub cfg.minPct cfg.bufPct) = false := by
        rw [Bool.eq_false_iff]
        intro hb
        exact absurd (hlt1.mp hb) (by rw [heq]; exact lt_irrefl _)
      have ht2 : Frac.lt v cfg.minPct = true := by
        rw [hlt2, heq]
        linarith
      rw [hred, hf1, ht2]
      simp
    · intro hlt
      have ht1 : Frac.lt v (Frac.sub cfg.minPct cfg.bufPct) = true := hlt1.mpr hlt
      rw [hred, ht1]
      simp
    · intro hge
      have hf1 : Frac.lt v (Frac.sub cfg.minPct cfg.bufPct) = false := by
        rw [Bool.eq_false_iff]
        intro hb
        have := hlt1.mp hb
        linarith
      have hf2 : Frac.lt v cfg.minPct = false := by
        rw [Bool.eq_false_iff]
        intro hb
        have := hlt2.mp hb
        linarith
      rw [hred, hf1, hf2]
      simp

/-- Witness for `C7_buffer_boundary`: CGPA cell `"5.9"` under the
default thresholds (min 6.0, buffer 0.1) sits exactly on the boundary
and produces exactly the soft reason. -/
theorem C7_buffer_boundary_witness :
    cgpaCheck defaultConfig "5.9" = ([], [Reason.cgpaSlightlyBelow ⟨59, 10⟩]) := by
  have h := C7_buffer_boundary defaultConfig "5.9" ⟨59, 10⟩
    (by decide) (by decide) (by decide) (by decide)
    (by decide) (by decide) (by decide) (by decide)
    (by norm_num [defaultConfig, Frac.toRat])
    (by norm_num [defaultConfig, Frac.toRat])
    (by norm_num [Frac.toRat])
  exact (h.1 (by norm_num [Frac.toRat])).1 (by norm_num [defaultConfig, Frac.toRat])

/-! ### C8 — the national-ID duplicate rule -/

/-- Claim C8, counterexample: a fresh batch row whose Aadhaar appears
only in the PRIOR Clean table is hard-rejected as a duplicate, because
lines 300-305 seed `seen_adhars` from the persisted output tables —
contradicting the claim that only IDs seen earlier in the same run's
batch are flagged. -/
theorem C8_prior_table_causes_duplicate :
    (runBatch defaultConfig (seedAdhars [rowGood] [] []) [rowGood]).rejected.map
        (fun o => o.reasons)
      = [[Reason.duplicateAadhaar "123456789012"]] := by decide

/-- Claim C8 as amended: the duplicate-Aadhaar hard reason fires exactly
when the stripped ID is in the current seen-set — a set seeded from the
three persisted output tables (lines 300-305) and grown by each earlier
batch row; a row whose ID is not yet in the set is not flagged and adds
its ID to the set. -/
theorem C8_duplicate_rule (cfg : Config) (sE sA : List String) (em : String) (r : Row) :
    (Reason.duplicateAadhaar (strip r.adhar) ∈ (classify cfg sE sA em r).hard
       ↔ sA.contains (strip r.adhar) = true)
    ∧ (sA.contains (strip r.adhar) = false →
        (classify cfg sE sA em r).seenA = sA ++ [strip r.adhar]) := by
  constructor
  · constructor
    · intro hmem
      simp only [classify, List.mem_append] at hmem
      rcases hmem with ((((((((h | h) | h) | h) | h) | h) | h) | h) | h) | h
      · obtain ⟨f, hf⟩ := mem_mandatoryHard h
        exact Reason.noConfusion hf
      · exact Reason.noConfusion (mem_ite_singleton h)
      · exact Reason.noConfusion (mem_ite_singleton h)
      · exact Reason.noConfusion (mem_ite_singleton h)
      · exact Reason.noConfusion (mem_ite_singleton h)
      · exact mem_ite_nonempty h
      · rcases pctCheck_cases cfg r.pct with h0 | ⟨v1, h0⟩ | ⟨v1, h0⟩ | ⟨v1, h0⟩ |
          ⟨s1, h0⟩ <;> rw [h0] at h <;> simp at h
      · rcases cgpaCheck_cases cfg r.cgpa with h0 | ⟨v1, h0⟩ | ⟨v1, h0⟩ | ⟨v1, h0⟩ |
          ⟨s1, h0⟩ <;> rw [h0] at h <;> simp at h
      · rcases gradYearCheck_cases cfg r.gradYear with h0 | ⟨y1, h0⟩ | h0 <;>
          rw [h0] at h <;> simp at h
      · rcases expCheck_cases cfg r.exp with h0 | ⟨v1, h0⟩ | ⟨s1, h0⟩ <;>
          rw [h0] at h <;> simp at h
    · intro hcA
      have hm : strip r.adhar ∈ sA := by simpa using hcA
      simp [classify, hm]
  · intro hcA
    have hm : strip r.adhar ∉ sA := by simpa using hcA
    simp [classify, hm]

/-- Witness for `C8_duplicate_rule`: with the seen-set holding the ID
already, the duplicate reason is produced. -/
theorem C8_duplicate_rule_witness :
    Reason.duplicateAadhaar (strip (normaliseRow rowGood).adhar)
      ∈ (classify defaultConfig [] ["123456789012"] "asha@example.com"
          (normaliseRow rowGood)).hard :=
  (C8_duplicate_rule defaultConfig [] ["123456789012"] "asha@example.com"
    (normaliseRow rowGood)).1.mpr (by decide)

/-! ### Structural lemmas about the batch fold -/

theorem bool_eq_false {b : Bool} (h : ¬b = true) : b = false := by
  cases b
  · rfl
  · exact absurd rfl h

theorem classify_seenA (cfg : Config) (sE sA : List String) (em : String) (r : Row) :
    (classify cfg sE sA em r).seenA =
      if sA.contains (strip r.adhar) = true then sA else sA ++ [strip r.adhar] := rfl

theorem classify_seenA_mono (cfg : Config) (sE sA : List String) (em : String) (r : Row)
    {x : String} (h : x ∈ sA) : x ∈ (classify cfg sE sA em r).seenA := by
  rw [classify_seenA]
  by_cases hc : sA.contains (strip r.adhar) = true
  · rw [if_pos hc]; exact h
  · rw [if_neg hc]; exact List.mem_append_left _ h

theorem classify_seenA_adds (cfg : Config) (sE sA : List String) (em : String) (r : Row) :
    strip r.adhar ∈ (classify cfg sE sA em r).seenA := by
  rw [classify_seenA]
  by_cases hc : sA.contains (strip r.adhar) = true
  · rw [if_pos hc]; exact mem_of_contains hc
  · rw [if_neg hc]; exact List.mem_append_right _ (by simp)

theorem processRow_skip {cfg : Config} {ap : List String} {e2r : String → Option Nat}
    {st : BatchState} {r0 : Row} (h : ap.contains (rowKey r0) = true) :
    processRow cfg ap e2r st r0 = st := by
  unfold processRow
  rw [if_pos h]

theorem processRow_not_skip {cfg : Config} {ap : List String} {e2r : String → Option Nat}
    {st : BatchState} {r0 : Row} (h : ap.contains (rowKey r0) = false) :
    processRow cfg ap e2r st r0 =
      applyRoute e2r st (normaliseRow r0)
        (classify cfg st.seenE st.seenA (rowKey r0) (normaliseRow r0))
        (route (classify cfg st.seenE st.seenA (rowKey r0) (normaliseRow r0)).hard
               (classify cfg st.seenE st.seenA (rowKey r0) (normaliseRow r0)).soft) := by
  unfold processRow
  rw [if_neg (by simpa using h)]

theorem applyRoute_seenA (e2r : String → Option Nat) (st : BatchState) (r : Row)
    (v : VOut) (p : Disp × List Reason) : (applyRoute e2r st r v p).seenA = v.seenA := by
  rcases p with ⟨d, rs⟩
  cases d <;> rfl

theorem applyRoute_buckets (e2r : String → Option Nat) (st : BatchState) (r : Row)
    (v : VOut) (p : Disp × List Reason) :
    (∃ rs, (applyRoute e2r st r v p).clean = st.clean ++ [⟨r, rs⟩]
      ∧ (applyRoute e2r st r v p).rejected = st.rejected
      ∧ (applyRoute e2r st r v p).exceptionRows = st.exceptionRows)
    ∨ (∃ rs, (applyRoute e2r st r v p).clean = st.clean
      ∧ (applyRoute e2r st r v p).rejected = st.rejected ++ [⟨r, rs⟩]
      ∧ (applyRoute e2r st r v p).exceptionRows = st.exceptionRows)
    ∨ (∃ rs, (applyRoute e2r st r v p).clean = st.clean
      ∧ (applyRoute e2r st r v p).rejected = st.rejected
      ∧ (applyRoute e2r st r v p).exceptionRows = st.exceptionRows ++ [⟨r, rs⟩]) := by
  rcases p with ⟨d, rs⟩
  cases d with
  | accept => exact Or.inl ⟨[], rfl, rfl, rfl⟩
  | reject => exact Or.inr (Or.inl ⟨rs, rfl, rfl, rfl⟩)
  | exception => exact Or.inr (Or.inr ⟨rs, rfl, rfl, rfl⟩)

theorem applyRoute_updates (e2r : String → Option Nat) (st : BatchState) (r : Row)
    (v : VOut) (p : Disp × List Reason) :
    ∃ s, strip s ≠ ""
      ∧ (applyRoute e2r st r v p).updates = addUpdate e2r st.updates r.email s := by
  rcases p with ⟨d, rs⟩
  cases d with
  | accept => exact ⟨"Processed - Clean", by decide, rfl⟩
  | reject => exact ⟨"Processed - Rejected", by decide, rfl⟩
  | exception => exact ⟨"Processed - Exception", by decide, rfl⟩

theorem addUpdate_mono {e2r : String → Option Nat} {ups : List (Nat × String)}
    {em s : String} {p : Nat × String} (h : p ∈ ups) : p ∈ addUpdate e2r ups em s := by
  unfold addUpdate
  cases e2r em with
  | none => exact h
  | some i => exact List.mem_append_left _ h

theorem addUpdate_good {e2r : String → Option Nat} {ups : List (Nat × String)}
    {em s : String} (hs : strip s ≠ "") (hall : ∀ p ∈ ups, strip p.2 ≠ "") :
    ∀ p ∈ addUpdate e2r ups em s, strip p.2 ≠ "" := by
  unfold addUpdate
  cases e2r em with
  | none => exact hall
  | some i =>
    intro p hp
    rcases List.mem_append.mp hp with h | h
    · exact hall p h
    · have : p = (i, s) := by simpa using h
      rw [this]
      exact hs

theorem addUpdate_adds {e2r : String → Option Nat} {ups : List (Nat × String)}
    {em s : String} {i : Nat} (he : e2r em = some i) : (i, s) ∈ addUpdate e2r ups em s := by
  unfold addUpdate
  rw [he]
  exact List.mem_append_right _ (by simp)

/-- Exactly one bucket grows by the processed (normalised) row, or the
row is skipped and the state is unchanged. -/
theorem processRow_buckets (cfg : Config) (ap : List String) (e2r : String → Option Nat)
    (st : BatchState) (r0 : Row) :
    ((processRow cfg ap e2r st r0).clean = st.clean
      ∧ (processRow cfg ap e2r st r0).rejected = st.rejected
      ∧ (processRow cfg ap e2r st r0).exceptionRows = st.exceptionRows)
    ∨ (∃ rs, (processRow cfg ap e2r st r0).clean = st.clean ++ [⟨normaliseRow r0, rs⟩]
      ∧ (processRow cfg ap e2r st r0).rejected = st.rejected
      ∧ (processRow cfg ap e2r st r0).exceptionRows = st.exceptionRows)
    ∨ (∃ rs, (processRow cfg ap e2r st r0).clean = st.clean
      ∧ (processRow cfg ap e2r st r0).rejected = st.rejected ++ [⟨normaliseRow r0, rs⟩]
      ∧ (processRow cfg ap e2r st r0).exceptionRows = st.exceptionRows)
    ∨ (∃ rs, (processRow cfg ap e2r st r0).clean = st.clean
      ∧ (processRow cfg ap e2r st r0).rejected = st.rejected
      ∧ (processRow cfg ap e2r st r0).exceptionRows
          = st.exceptionRows ++ [⟨normaliseRow r0, rs⟩]) := by
  by_cases hsk : ap.contains (rowKey r0) = true
  · left
    rw [processRow_skip hsk]
    exact ⟨rfl, rfl, rfl⟩
  · rw [processRow_not_skip (bool_eq_false hsk)]
    rcases applyRoute_buckets e2r st (normaliseRow r0)
        (classify cfg st.seenE st.seenA (rowKey r0) (normaliseRow r0))
        (route (classify cfg st.seenE st.seenA (rowKey r0) (normaliseRow r0)).hard
               (classify cfg st.seenE st.seenA (rowKey r0) (normaliseRow r0)).soft)
      with ⟨rs, h1, h2, h3⟩ | ⟨rs, h1, h2, h3⟩ | ⟨rs, h1, h2, h3⟩
    · exact Or.inr (Or.inl ⟨rs, h1, h2, h3⟩)
    · exact Or.inr (Or.inr (Or.inl ⟨rs, h1, h2, h3⟩))
    · exact Or.inr (Or.inr (Or.inr ⟨rs, h1, h2, h3⟩))

theorem processRow_seenA_mono (cfg : Config) (ap : List String) (e2r : String → Option Nat)
    (st : BatchState) (r0 : Row) {x : String} (h : x ∈ st.seenA) :
    x ∈ (processRow cfg ap e2r st r0).seenA := by
  by_cases hsk : ap.contains (rowKey r0) = true
  · rw [processRow_skip hsk]; exact h
  · rw [processRow_not_skip (bool_eq_false hsk), applyRoute_seenA]
    exact classify_seenA_mono _ _ _ _ _ h

theorem processRow_seenA_adds (cfg : Config) (ap : List String) (e2r : String → Option Nat)
    (st : BatchState) (r0 : Row) (h : ap.contains (rowKey r0) = false) :
    strip (normaliseRow r0).adhar ∈ (processRow cfg ap e2r st r0).seenA := by
  rw [processRow_not_skip h, applyRoute_seenA]
  exact classify_seenA_adds _ _ _ _ _

theorem processRow_rejected_mono (cfg : Config) (ap : List String)
    (e2r : String → Option Nat) (st : BatchState) (r0 : Row) {o : OutRow}
    (h : o ∈ st.rejected) : o ∈ (processRow cfg ap e2r st r0).rejected := by
  rcases processRow_buckets cfg ap e2r st r0 with ⟨_, hr, _⟩ | ⟨rs, _, hr, _⟩ |
    ⟨rs, _, hr, _⟩ | ⟨rs, _, hr, _⟩ <;> rw [hr]
  · exact h
  · exact h
  · exact List.mem_append_left _ h
  · exact h

theorem foldl_seenA_mono (cfg : Config) (ap : List String) (e2r : String → Option Nat)
    (l : List Row) (st : BatchState) {x : String} (h : x ∈ st.seenA) :
    x ∈ (l.foldl (processRow cfg ap e2r) st).seenA := by
  induction l generalizing st with
  | nil => exact h
  | cons r0 tl ih =>
    exact ih (processRow cfg ap e2r st r0) (processRow_seenA_mono cfg ap e2r st r0 h)

theorem foldl_rejected_mono (cfg : Config) (ap : List String) (e2r : String → Option Nat)
    (l : List Row) (st : BatchState) {o : OutRow} (h : o ∈ st.rejected) :
    o ∈ (l.foldl (processRow cfg ap e2r) st).rejected := by
  induction l generalizing st with
  | nil => exact h
  | cons r0 tl ih =>
    exact ih (processRow cfg ap e2r st r0) (processRow_rejected_mono cfg ap e2r st r0 h)

/-! ### C3 — disjointness of the three buckets -/

/-- Claim C3, counterexample: a batch holding the same fully valid row
twice writes its email to BOTH the Clean and the Rejected table — the
first occurrence is accepted, the in-batch duplicate is hard-rejected
(line 344), so the same email lands in two collections in one run. -/
theorem C3_duplicate_email_in_two_buckets :
    "asha@example.com"
        ∈ (runBatch defaultConfig [] [rowGood, rowGood]).clean.map
            (fun o => o.row.email)
      ∧ "asha@example.com"
        ∈ (runBatch defaultConfig [] [rowGood, rowGood]).rejected.map
            (fun o => o.row.email) := by
  decide

theorem foldl_disjoint (cfg : Config) (ap : List String) (e2r : String → Option Nat)
    (l : List Row) :
    ∀ st : BatchState,
      (l.map rowKey).Nodup →
      (∀ e, e ∈ st.clean.map (fun o => o.row.email) → e ∉ l.map rowKey) →
      (∀ e, e ∈ st.rejected.map (fun o => o.row.email) → e ∉ l.map rowKey) →
      (∀ e, e ∈ st.exceptionRows.map (fun o => o.row.email) → e ∉ l.map rowKey) →
      (st.clean.map (fun o => o.row.email)).Disjoint
        (st.rejected.map (fun o => o.row.email)) →
      (st.clean.map (fun o => o.row.email)).Disjoint
        (st.exceptionRows.map (fun o => o.row.email)) →
      (st.rejected.map (fun o => o.row.email)).Disjoint
        (st.exceptionRows.map (fun o => o.row.email)) →
      ((l.foldl (processRow cfg ap e2r) st).clean.map (fun o => o.row.email)).Disjoint
          ((l.foldl (processRow cfg ap e2r) st).rejected.map (fun o => o.row.email))
        ∧ ((l.foldl (processRow cfg ap e2r) st).clean.map (fun o => o.row.email)).Disjoint
          ((l.foldl (processRow cfg ap e2r) st).exceptionRows.map (fun o => o.row.email))
        ∧ ((l.foldl (processRow cfg ap e2r) st).rejected.map
            (fun o => o.row.email)).Disjoint
          ((l.foldl (processRow cfg ap e2r) st).exceptionRows.map
            (fun o => o.row.email)) := by
  induction l with
  | nil =>
    intro st _ _ _ _ hCR hCX hRX
    exact ⟨hCR, hCX, hRX⟩
  | cons r0 tl ih =>
    intro st hnd hC hR hX hCR hCX hRX
    have hnd' : (tl.map rowKey).Nodup := by
      rw [List.map_cons, List.nodup_cons] at hnd
      exact hnd.2
    have hhead : rowKey r0 ∉ tl.map rowKey := by
      rw [List.map_cons, List.nodup_cons] at hnd
      exact hnd.1
    have tailNotMem : ∀ e, e ∉ (r0 :: tl).map rowKey → e ∉ tl.map rowKey := by
      intro e he hm
      exact he (by rw [List.map_cons]; exact List.mem_cons_of_mem _ hm)
    have headMem : rowKey r0 ∈ (r0 :: tl).map rowKey := by
      rw [List.map_cons]
      exact List.mem_cons_self _ _
    rw [List.foldl_cons]
    rcases processRow_buckets cfg ap e2r st r0 with ⟨hc, hr, hx⟩ | ⟨rs, hc, hr, hx⟩ |
      ⟨rs, hc, hr, hx⟩ | ⟨rs, hc, hr, hx⟩
    · refine ih _ hnd' ?_ ?_ ?_ ?_ ?_ ?_
      · intro e he; rw [hc] at he; exact tailNotMem e (hC e he)
      · intro e he; rw [hr] at he; exact tailNotMem e (hR e he)
      · intro e he; rw [hx] at he; exact tailNotMem e (hX e he)
      · rw [hc, hr]; exact hCR
      · rw [hc, hx]; exact hCX
      · rw [hr, hx]; exact hRX
    · refine ih _ hnd' ?_ ?_ ?_ ?_ ?_ ?_
      · intro e he
        rw [hc] at he
        simp only [List.map_append, List.map_cons, List.map_nil, normaliseRow_email] at he
        rcases List.mem_append.mp he with h | h
        · exact tailNotMem e (hC e h)
        · have : e = rowKey r0 := by simpa using h
          rw [this]; exact hhead
      · intro e he; rw [hr] at he; exact tailNotMem e (hR e he)
      · intro e he; rw [hx] at he; exact tailNotMem e (hX e he)
      · rw [hc, hr]
        intro a ha1 ha2
        simp only [List.map_append, List.map_cons, List.map_nil, normaliseRow_email] at ha1
        rcases List.mem_append.mp ha1 with h | h
        · exact hCR h ha2
        · have : a = rowKey r0 := by simpa using h
          rw [this] at ha2
          exact hR (rowKey r0) ha2 headMem
      · rw [hc, hx]
        intro a ha1 ha2
        simp only [List.map_append, List.map_cons, List.map_nil, normaliseRow_email] at ha1
        rcases List.mem_append.mp ha1 with h | h
        · exact hCX h ha2
        · have : a = rowKey r0 := by simpa using h
          rw [this] at ha2
          exact hX (rowKey r0) ha2 headMem
      · rw [hr, hx]; exact hRX
    · refine ih _ hnd' ?_ ?_ ?_ ?_ ?_ ?_
      · intro e he; rw [hc] at he; exact tailNotMem e (hC e he)
      · intro e he
        rw [hr] at he
        simp only [List.map_append, List.map_cons, List.map_nil, normaliseRow_email] at he
        rcases List.mem_append.mp he with h | h
        · exact tailNotMem e (hR e h)
        · have : e = rowKey r0 := by simpa using h
          rw [this]; exact hhead
      · intro e he; rw [hx] at he; exact tailNotMem e (hX e he)
      · rw [hc, hr]
        intro a ha1 ha2
        simp only [List.map_append, List.map_cons, List.map_nil, normaliseRow_email] at ha2
        rcases List.mem_append.mp ha2 with h | h
        · exact hCR ha1 h
        · have : a = rowKey r0 := by simpa using h
          rw [this] at ha1
          exact hC (rowKey r0) ha1 headMem
      · rw [hc, hx]; exact hCX
      · rw [hr, hx]
        intro a ha1 ha2
        simp only [List.map_append, List.map_cons, List.map_nil, normaliseRow_email] at ha1
        rcases List.mem_append.mp ha1 with h | h
        · exact hRX h ha2
        · have : a = rowKey r0 := by simpa using h
          rw [this] at ha2
          exact hX (rowKey r0) ha2 headMem
    · refine ih _ hnd' ?_ ?_ ?_ ?_ ?_ ?_
      · intro e he; rw [hc] at he; exact tailNotMem e (hC e he)
      · intro e he; rw [hr] at he; exact tailNotMem e (hR e he)
      · intro e he
        rw [hx] at he
        simp only [List.map_append, List.map_cons, List.map_nil, normaliseRow_email] at he
        rcases List.mem_append.mp he with h | h
        · exact tailNotMem e (hX e h)
        · have : e = rowKey r0 := by simpa using h
          rw [this]; exact hhead
      · rw [hc, hr]; exact hCR
      · rw [hc, hx]
        intro a ha1 ha2
        simp only [List.map_append, List.map_cons, List.map_nil, normaliseRow_email] at ha2
        rcases List.mem_append.mp ha2 with h | h
        · exact hCX ha1 h
        · have : a = rowKey r0 := by simpa using h
          rw [this] at ha1
          exact hC (rowKey r0) ha1 headMem
      · rw [hr, hx]
        intro a ha1 ha2
        simp only [List.map_append, List.map_cons, List.map_nil, normaliseRow_email] at ha2
        rcases List.mem_append.mp ha2 with h | h
        · exact hRX ha1 h
        · have : a = rowKey r0 := by simpa using h
          rw [this] at ha1
          exact hR (rowKey r0) ha1 headMem

/-- Claim C3 as amended: each classified row is written to exactly one
bucket, so when the raw snapshot's normalised emails are pairwise
distinct the emails written by a run to Clean, Rejected and Exception
are pairwise disjoint; a snapshot with a repeated email violates the
invariant (see `C3_duplicate_email_in_two_buckets`). -/
theorem C3_disjoint_buckets (cfg : Config) (seedA : List String) (rows : List Row)
    (hnd : (rows.map rowKey).Nodup) :
    ((runBatch cfg seedA rows).clean.map (fun o => o.row.email)).Disjoint
        ((runBatch cfg seedA rows).rejected.map (fun o => o.row.email))
      ∧ ((runBatch cfg seedA rows).clean.map (fun o => o.row.email)).Disjoint
        ((runBatch cfg seedA rows).exceptionRows.map (fun o => o.row.email))
      ∧ ((runBatch cfg seedA rows).rejected.map (fun o => o.row.email)).Disjoint
        ((runBatch cfg seedA rows).exceptionRows.map (fun o => o.row.email)) := by
  unfold runBatch
  refine foldl_disjoint cfg (alreadyProcessed rows) (lastIdxOfEmail rows) rows
    ⟨[], [], [], alreadyProcessed rows, seedA, []⟩ hnd ?_ ?_ ?_ ?_ ?_ ?_
  · intro e he; simp at he
  · intro e he; simp at he
  · intro e he; simp at he
  · intro a ha; simp at ha
  · intro a ha; simp at ha
  · intro a ha; simp at ha

/-- Witness for `C3_disjoint_buckets`: with one valid row, its email
cannot be in both Clean and Rejected. -/
theorem C3_disjoint_buckets_witness :
    ¬("asha@example.com"
        ∈ (runBatch defaultConfig [] [rowGood]).clean.map (fun o => o.row.email)
      ∧ "asha@example.com"
        ∈ (runBatch defaultConfig [] [rowGood]).rejected.map (fun o => o.row.email)) :=
  fun h =>
    (C3_disjoint_buckets defaultConfig [] [rowGood] (by decide)).1 h.1 h.2

/-! ### C10 — empty national IDs collide in the seen-set -/

theorem foldl_seenA_empty (cfg : Config) (ap : List String) (e2r : String → Option Nat)
    (l : List Row) (st : BatchState)
    (h : ∃ r1 ∈ l, ap.contains (rowKey r1) = false ∧ digitsOnly r1.adhar = "") :
    "" ∈ (l.foldl (processRow cfg ap e2r) st).seenA := by
  induction l generalizing st with
  | nil =>
    obtain ⟨r1, h1, _⟩ := h
    cases h1
  | cons r0 tl ih =>
    obtain ⟨r1, h1, hns, hda⟩ := h
    rw [List.foldl_cons]
    rcases List.mem_cons.mp h1 with heq | hmem
    · subst heq
      apply foldl_seenA_mono
      have hadd := processRow_seenA_adds cfg ap e2r st r1 hns
      have he : strip (normaliseRow r1).adhar = "" := by
        show strip (strip (digitsOnly r1.adhar)) = ""
        rw [hda]
        decide
      rw [he] at hadd
      exact hadd
    · exact ih (processRow cfg ap e2r st r0) ⟨r1, hmem, hns, hda⟩

theorem classify_empty_adhar_hard (cfg : Config) (sE sA : List String) (em : String)
    (r : Row) (hA : r.adhar = "") (hsA : "" ∈ sA) :
    Reason.duplicateAadhaar "" ∈ (classify cfg sE sA em r).hard
      ∧ Reason.missing "Adhar Number" ∈ (classify cfg sE sA em r).hard := by
  have hstrip : strip r.adhar = "" := by rw [hA]; decide
  constructor
  · simp only [classify, List.mem_append]
    refine Or.inl (Or.inl (Or.inl (Or.inl (Or.inr ?_))))
    rw [hstrip, if_pos (contains_of_mem hsA)]
    simp
  · simp only [classify, List.mem_append]
    refine Or.inl (Or.inl (Or.inl (Or.inl (Or.inl (Or.inl (Or.inl (Or.inl (Or.inl ?_))))))))
    unfold mandatoryHard
    rw [List.mem_filterMap]
    refine ⟨("Adhar Number", r.adhar), by simp [mandatoryPairs], ?_⟩
    rw [hA]
    decide

theorem processRow_empty_adhar_rejects (cfg : Config) (ap : List String)
    (e2r : String → Option Nat) (st : BatchState) (r0 : Row)
    (hns : ap.contains (rowKey r0) = false)
    (hda : digitsOnly r0.adhar = "") (hsA : "" ∈ st.seenA) :
    ∃ rs, (processRow cfg ap e2r st r0).rejected = st.rejected ++ [⟨normaliseRow r0, rs⟩]
      ∧ Reason.duplicateAadhaar "" ∈ rs ∧ Reason.missing "Adhar Number" ∈ rs := by
  have hA : (normaliseRow r0).adhar = "" := by
    show strip (digitsOnly r0.adhar) = ""
    rw [hda]
    decide
  obtain ⟨hdup, hmiss⟩ :=
    classify_empty_adhar_hard cfg st.seenE st.seenA (rowKey r0) (normaliseRow r0) hA hsA
  have hhne : (classify cfg st.seenE st.seenA (rowKey r0) (normaliseRow r0)).hard ≠ [] := by
    intro h0
    rw [h0] at hdup
    cases hdup
  have hroute :
      route (classify cfg st.seenE st.seenA (rowKey r0) (normaliseRow r0)).hard
          (classify cfg st.seenE st.seenA (rowKey r0) (normaliseRow r0)).soft
        = (Disp.reject, (classify cfg st.seenE st.seenA (rowKey r0) (normaliseRow r0)).hard) := by
    simp [route, isEmpty_false_of_ne_nil hhne]
  rw [processRow_not_skip hns, hroute]
  exact ⟨(classify cfg st.seenE st.seenA (rowKey r0) (normaliseRow r0)).hard,
    rfl, hdup, hmiss⟩

/-- Claim C10, confirmed: in a batch with two or more unprocessed rows
whose national ID normalises to the empty string, the first such row
adds `""` to the seen-ID set (line 362 has no emptiness guard), so
every later such row is hard-rejected with a "Duplicate Aadhaar"
failure in addition to its missing-mandatory-field failure. -/
theorem C10_empty_id_duplicate (cfg : Config) (seedA : List String)
    (pre post : List Row) (r2 : Row)
    (h1 : ∃ r1 ∈ pre, (alreadyProcessed (pre ++ r2 :: post)).contains (rowKey r1) = false
            ∧ digitsOnly r1.adhar = "")
    (h2 : (alreadyProcessed (pre ++ r2 :: post)).contains (rowKey r2) = false)
    (h3 : digitsOnly r2.adhar = "") :
    ∃ o ∈ (runBatch cfg seedA (pre ++ r2 :: post)).rejected,
      o.row = normaliseRow r2 ∧ Reason.duplicateAadhaar "" ∈ o.reasons
        ∧ Reason.missing "Adhar Number" ∈ o.reasons := by
  unfold runBatch
  rw [List.foldl_append, List.foldl_cons]
  obtain ⟨rs, hrej, hdup, hmiss⟩ :=
    processRow_empty_adhar_rejects cfg (alreadyProcessed (pre ++ r2 :: post))
      (lastIdxOfEmail (pre ++ r2 :: post))
      (pre.foldl
        (processRow cfg (alreadyProcessed (pre ++ r2 :: post))
          (lastIdxOfEmail (pre ++ r2 :: post)))
        ⟨[], [], [], alreadyProcessed (pre ++ r2 :: post), seedA, []⟩)
      r2 h2 h3
      (foldl_seenA_empty cfg (alreadyProcessed (pre ++ r2 :: post))
        (lastIdxOfEmail (pre ++ r2 :: post)) pre
        ⟨[], [], [], alreadyProcessed (pre ++ r2 :: post), seedA, []⟩ h1)
  refine ⟨⟨normaliseRow r2, rs⟩, ?_, rfl, hdup, hmiss⟩
  apply foldl_rejected_mono
  rw [hrej]
  exact List.mem_append_right _ (by simp)

/-! ### C4 — idempotence under re-run with markers applied -/

theorem markerAfter_keep (ups : List (Nat × String)) :
    ∀ (i : Nat) (m : String), strip m ≠ "" → (∀ p ∈ ups, strip p.2 ≠ "") →
      strip (markerAfter ups i m) ≠ "" := by
  induction ups with
  | nil => intro i m hm _; exact hm
  | cons p ups ih =>
    intro i m hm hall
    show strip (markerAfter ups i (if p.1 == i then p.2 else m)) ≠ ""
    apply ih
    · by_cases hp : (p.1 == i) = true
      · rw [if_pos hp]; exact hall p (by simp)
      · rw [if_neg hp]; exact hm
    · intro q hq; exact hall q (List.mem_cons_of_mem _ hq)

theorem markerAfter_hit (ups : List (Nat × String)) :
    ∀ (i : Nat) (m s : String), (i, s) ∈ ups → (∀ p ∈ ups, strip p.2 ≠ "") →
      strip (markerAfter ups i m) ≠ "" := by
  induction ups with
  | nil => intro i m s h _; cases h
  | cons p ups ih =>
    intro i m s hmem hall
    show strip (markerAfter ups i (if p.1 == i then p.2 else m)) ≠ ""
    rcases List.mem_cons.mp hmem with heq | hmem'
    · have hj : p.1 = i ∧ p.2 = s := by rw [← heq]; exact ⟨rfl, rfl⟩
      have hcond : (p.1 == i) = true := by rw [hj.1]; simp
      rw [if_pos hcond]
      apply markerAfter_keep
      · exact hall p (by simp)
      · intro q hq; exact hall q (List.mem_cons_of_mem _ hq)
    · exact ih i _ s hmem' (fun q hq => hall q (List.mem_cons_of_mem _ hq))

theorem applyUpdatesAux_get (ups : List (Nat × String)) :
    ∀ (rows : List Row) (k u : Nat) (h : u < rows.length),
      ({ rows.get ⟨u, h⟩ with marker := markerAfter ups (k + u) (rows.get ⟨u, h⟩).marker })
        ∈ applyUpdatesAux ups k rows := by
  intro rows
  induction rows with
  | nil => intro k u h; exact absurd h (Nat.not_lt_zero u)
  | cons r rs ih =>
    intro k u h
    cases u with
    | zero => exact List.mem_cons_self _ _
    | succ u0 =>
      have h0 : u0 < rs.length := Nat.lt_of_succ_lt_succ h
      have hmem := ih (k + 1) u0 h0
      apply List.mem_cons_of_mem
      rw [show k + (u0 + 1) = (k + 1) + u0 from by omega]
      exact hmem

theorem applyUpdatesAux_mem (ups : List (Nat × String)) :
    ∀ (rows : List Row) (k : Nat) (r2 : Row), r2 ∈ applyUpdatesAux ups k rows →
      ∃ r ∈ rows, ∃ i, r2 = { r with marker := markerAfter ups i r.marker } := by
  intro rows
  induction rows with
  | nil => intro k r2 h; cases h
  | cons r rs ih =>
    intro k r2 h
    simp only [applyUpdatesAux] at h
    rcases List.mem_cons.mp h with heq | hmem
    · exact ⟨r, by simp, k, heq⟩
    · obtain ⟨r1, hr1, i, hi⟩ := ih (k + 1) r2 hmem
      exact ⟨r1, List.mem_cons_of_mem _ hr1, i, hi⟩

theorem lastIdxAux_spec (e : String) :
    ∀ (rows : List Row) (k j : Nat), lastIdxAux e k rows = some j →
      ∃ u, ∃ h : u < rows.length, j = k + u ∧ rowKey (rows.get ⟨u, h⟩) = e := by
  intro rows
  induction rows with
  | nil =>
    intro k j h
    simp only [lastIdxAux] at h
    exact Option.noConfusion h
  | cons r rs ih =>
    intro k j h
    simp only [lastIdxAux] at h
    cases hrec : lastIdxAux e (k + 1) rs with
    | some j0 =>
      rw [hrec] at h
      simp only [] at h
      obtain ⟨u, hu, hju, hkey⟩ := ih (k + 1) j0 hrec
      have hj : j = j0 := (Option.some.inj h).symm
      refine ⟨u + 1, Nat.succ_lt_succ hu, by omega, ?_⟩
      exact hkey
    | none =>
      rw [hrec] at h
      simp only [] at h
      by_cases hk : (rowKey r == e) = true
      · rw [if_pos hk] at h
        have hj := Option.some.inj h
        refine ⟨0, Nat.succ_pos _, by omega, ?_⟩
        simpa using hk
      · rw [if_neg hk] at h
        cases h

theorem lastIdxAux_isSome (e : String) :
    ∀ (rows : List Row) (k : Nat), (∃ r ∈ rows, rowKey r = e) →
      ∃ j, lastIdxAux e k rows = some j := by
  intro rows
  induction rows with
  | nil =>
    intro k h
    obtain ⟨r, hr, _⟩ := h
    cases hr
  | cons r rs ih =>
    intro k hex
    simp only [lastIdxAux]
    cases hrec : lastIdxAux e (k + 1) rs with
    | some j0 => exact ⟨j0, rfl⟩
    | none =>
      obtain ⟨r1, hr1, hkey⟩ := hex
      rcases List.mem_cons.mp hr1 with heq | hmem
      · refine ⟨k, ?_⟩
        simp only []
        rw [if_pos (by rw [← heq]; simp [hkey])]
      · obtain ⟨j, hj⟩ := ih (k + 1) ⟨r1, hmem, hkey⟩
        rw [hrec] at hj
        cases hj

theorem mem_alreadyProcessed {rows : List Row} {r : Row} (hr : r ∈ rows)
    (hm : strip r.marker ≠ "") : rowKey r ∈ alreadyProcessed rows := by
  unfold alreadyProcessed
  rw [List.mem_filterMap]
  exact ⟨r, hr, by rw [if_neg (by simp [hm])]⟩

theorem processRow_updates_mono (cfg : Config) (ap : List String)
    (e2r : String → Option Nat) (st : BatchState) (r0 : Row) {p : Nat × String}
    (h : p ∈ st.updates) : p ∈ (processRow cfg ap e2r st r0).updates := by
  by_cases hsk : ap.contains (rowKey r0) = true
  · rw [processRow_skip hsk]; exact h
  · rw [processRow_not_skip (bool_eq_false hsk)]
    obtain ⟨s, _, hu⟩ := applyRoute_updates e2r st (normaliseRow r0)
      (classify cfg st.seenE st.seenA (rowKey r0) (normaliseRow r0))
      (route (classify cfg st.seenE st.seenA (rowKey r0) (normaliseRow r0)).hard
             (classify cfg st.seenE st.seenA (rowKey r0) (normaliseRow r0)).soft)
    rw [hu]
    exact addUpdate_mono h

theorem processRow_updates_good (cfg : Config) (ap : List String)
    (e2r : String → Option Nat) (st : BatchState) (r0 : Row)
    (hall : ∀ p ∈ st.updates, strip p.2 ≠ "") :
    ∀ p ∈ (processRow cfg ap e2r st r0).updates, strip p.2 ≠ "" := by
  by_cases hsk : ap.contains (rowKey r0) = true
  · rw [processRow_skip hsk]; exact hall
  · rw [processRow_not_skip (bool_eq_false hsk)]
    obtain ⟨s, hs, hu⟩ := applyRoute_updates e2r st (normaliseRow r0)
      (classify cfg st.seenE st.seenA (rowKey r0) (normaliseRow r0))
      (route (classify cfg st.seenE st.seenA (rowKey r0) (normaliseRow r0)).hard
             (classify cfg st.seenE st.seenA (rowKey r0) (normaliseRow r0)).soft)
    rw [hu]
    exact addUpdate_good hs hall

theorem processRow_updates_adds (cfg : Config) (ap : List String)
    (e2r : String → Option Nat) (st : BatchState) (r0 : Row)
    (hns : ap.contains (rowKey r0) = false) {i : Nat}
    (he : e2r (rowKey r0) = some i) :
    ∃ s, (i, s) ∈ (processRow cfg ap e2r st r0).updates := by
  rw [processRow_not_skip hns]
  obtain ⟨s, _, hu⟩ := applyRoute_updates e2r st (normaliseRow r0)
    (classify cfg st.seenE st.seenA (rowKey r0) (normaliseRow r0))
    (route (classify cfg st.seenE st.seenA (rowKey r0) (normaliseRow r0)).hard
           (classify cfg st.seenE st.seenA (rowKey r0) (normaliseRow r0)).soft)
  rw [hu]
  exact ⟨s, addUpdate_adds he⟩

theorem foldl_updates_mono (cfg : Config) (ap : List String) (e2r : String → Option Nat)
    (l : List Row) (st : BatchState) {p : Nat × String} (h : p ∈ st.updates) :
    p ∈ (l.foldl (processRow cfg ap e2r) st).updates := by
  induction l generalizing st with
  | nil => exact h
  | cons r0 tl ih =>
    exact ih (processRow cfg ap e2r st r0) (processRow_updates_mono cfg ap e2r st r0 h)

theorem foldl_updates_good (cfg : Config) (ap : List String) (e2r : String → Option Nat)
    (l : List Row) :
    ∀ st : BatchState, (∀ p ∈ st.updates, strip p.2 ≠ "") →
      ∀ p ∈ (l.foldl (processRow cfg ap e2r) st).updates, strip p.2 ≠ "" := by
  induction l with
  | nil => intro st h; exact h
  | cons r0 tl ih =>
    intro st h
    exact ih (processRow cfg ap e2r st r0) (processRow_updates_good cfg ap e2r st r0 h)

theorem foldl_covered (cfg : Config) (rows : List Row) :
    ∀ (l : List Row) (st : BatchState), (∀ r ∈ l, r ∈ rows) →
      ∀ r ∈ l,
        (alreadyProcessed rows).contains (rowKey r) = true
        ∨ ∃ i s,
            (i, s) ∈ (l.foldl
              (processRow cfg (alreadyProcessed rows) (lastIdxOfEmail rows)) st).updates
            ∧ ∃ h : i < rows.length, rowKey (rows.get ⟨i, h⟩) = rowKey r := by
  intro l
  induction l with
  | nil => intro st _ r hr; cases hr
  | cons r0 tl ih =>
    intro st hsub r hr
    rw [List.foldl_cons]
    rcases List.mem_cons.mp hr with heq | hmem
    · subst heq
      by_cases hsk : (alreadyProcessed rows).contains (rowKey r) = true
      · exact Or.inl hsk
      · right
        have hr0 : r ∈ rows := hsub r (by simp)
        obtain ⟨j, hj⟩ := lastIdxAux_isSome (rowKey r) rows 0 ⟨r, hr0, rfl⟩
        obtain ⟨u, hu, hju, hkey⟩ := lastIdxAux_spec (rowKey r) rows 0 j hj
        obtain ⟨s, hs⟩ :=
          processRow_updates_adds cfg (alreadyProcessed rows) (lastIdxOfEmail rows) st r
            (bool_eq_false hsk) (i := j) (by exact hj)
        refine ⟨j, s,
          foldl_updates_mono cfg (alreadyProcessed rows) (lastIdxOfEmail rows) tl _ hs, ?_⟩
        have hj_eq : j = u := by omega
        subst hj_eq
        exact ⟨hu, hkey⟩
    · exact ih (processRow cfg (alreadyProcessed rows) (lastIdxOfEmail rows) st r0)
        (fun x hx => hsub x (List.mem_cons_of_mem _ hx)) r hmem

theorem foldl_skip_all (cfg : Config) (ap : List String) (e2r : String → Option Nat) :
    ∀ (l : List Row) (st : BatchState),
      (∀ r ∈ l, ap.contains (rowKey r) = true) →
      l.foldl (processRow cfg ap e2r) st = st := by
  intro l
  induction l with
  | nil => intro st _; rfl
  | cons r0 tl ih =>
    intro st hall
    rw [List.foldl_cons, processRow_skip (hall r0 (by simp))]
    exact ih st (fun r hr => hall r (List.mem_cons_of_mem _ hr))

theorem runBatch_updates_good (cfg : Config) (seedA : List String) (rows : List Row) :
    ∀ p ∈ (runBatch cfg seedA rows).updates, strip p.2 ≠ "" := by
  unfold runBatch
  apply foldl_updates_good
  intro p hp
  cases hp

theorem runBatch_covered (cfg : Config) (seedA : List String) (rows : List Row) :
    ∀ r ∈ rows,
      (alreadyProcessed rows).contains (rowKey r) = true
      ∨ ∃ i s, (i, s) ∈ (runBatch cfg seedA rows).updates
          ∧ ∃ h : i < rows.length, rowKey (rows.get ⟨i, h⟩) = rowKey r := by
  unfold runBatch
  exact foldl_covered cfg rows rows _ (fun x hx => hx)

theorem runBatch_skip_all (cfg : Config) (seedA : List String) (rows : List Row)
    (hall : ∀ r ∈ rows, (alreadyProcessed rows).contains (rowKey r) = true) :
    (runBatch cfg seedA rows).clean = [] ∧ (runBatch cfg seedA rows).rejected = []
      ∧ (runBatch cfg seedA rows).exceptionRows = [] := by
  unfold runBatch
  rw [foldl_skip_all cfg (alreadyProcessed rows) (lastIdxOfEmail rows) rows _ hall]
  exact ⟨rfl, rfl, rfl⟩

/-- Claim C4, confirmed: after a run writes its batched `Pipeline
Status` markers back, a second classification pass over the updated
snapshot (with any Aadhaar seed) skips every row and produces zero new
Clean / Rejected / Exception rows. -/
theorem C4_second_run_is_noop (cfg : Config) (seedA seedA2 : List String)
    (rows : List Row) :
    (runBatch cfg seedA2 (applyUpdates rows (runBatch cfg seedA rows).updates)).clean = []
    ∧ (runBatch cfg seedA2
        (applyUpdates rows (runBatch cfg seedA rows).updates)).rejected = []
    ∧ (runBatch cfg seedA2
        (applyUpdates rows (runBatch cfg seedA rows).updates)).exceptionRows = [] := by
  have hgood := runBatch_updates_good cfg seedA rows
  have hcov := runBatch_covered cfg seedA rows
  apply runBatch_skip_all
  intro r2 hr2
  obtain ⟨r, hr, i0, hi0⟩ :=
    applyUpdatesAux_mem ((runBatch cfg seedA rows).updates) rows 0 r2 hr2
  have hk2 : rowKey r2 = rowKey r := by simp [hi0]
  rcases hcov r hr with hsk | ⟨i, s, hmem, hlt, hkey⟩
  · have hmem1 : rowKey r ∈ alreadyProcessed rows := mem_of_contains hsk
    unfold alreadyProcessed at hmem1
    rw [List.mem_filterMap] at hmem1
    obtain ⟨rk, hrk, hfk⟩ := hmem1
    by_cases hmk : (strip rk.marker == "") = true
    · rw [if_pos hmk] at hfk
      cases hfk
    · rw [if_neg hmk] at hfk
      have hkk : rowKey rk = rowKey r := Option.some.inj hfk
      have hmne : strip rk.marker ≠ "" := by simpa using hmk
      obtain ⟨⟨u, hu⟩, hgu⟩ := List.mem_iff_get.mp hrk
      have hin := applyUpdatesAux_get ((runBatch cfg seedA rows).updates) rows 0 u hu
      rw [Nat.zero_add, hgu] at hin
      have hm2 : strip (markerAfter ((runBatch cfg seedA rows).updates) u rk.marker)
          ≠ "" :=
        markerAfter_keep ((runBatch cfg seedA rows).updates) u rk.marker hmne hgood
      have hap2 := mem_alreadyProcessed hin (by exact hm2)
      rw [hk2, ← hkk]
      exact contains_of_mem hap2
  · have hin := applyUpdatesAux_get ((runBatch cfg seedA rows).updates) rows 0 i hlt
    rw [Nat.zero_add] at hin
    have hm2 : strip (markerAfter ((runBatch cfg seedA rows).updates) i
        (rows.get ⟨i, hlt⟩).marker) ≠ "" :=
      markerAfter_hit ((runBatch cfg seedA rows).updates) i (rows.get ⟨i, hlt⟩).marker s
        hmem hgood
    have hap2 := mem_alreadyProcessed hin (by exact hm2)
    rw [hk2, ← hkey]
    exact contains_of_mem hap2

/-- Witness for `C10_empty_id_duplicate`: two fresh rows with no digits
in the Aadhaar field; the second is rejected with both failures. -/
theorem C10_empty_id_duplicate_witness :
    ∃ o ∈ (runBatch defaultConfig []
        ([{ rowGood with adhar := "" }]
          ++ { rowGood with adhar := "", email := "beni@example.com" } :: [])).rejected,
      o.row = normaliseRow { rowGood with adhar := "", email := "beni@example.com" }
        ∧ Reason.duplicateAadhaar "" ∈ o.reasons
        ∧ Reason.missing "Adhar Number" ∈ o.reasons :=
  C10_empty_id_duplicate defaultConfig [] [{ rowGood with adhar := "" }] []
    { rowGood with adhar := "", email := "beni@example.com" }
    (by decide) (by decide) (by decide)

/-! ### C9 — validation and deduplication of external scores -/

theorem insertDesc_perm (p : String × Frac) :
    ∀ l, (insertDesc p l).Perm (p :: l) := by
  intro l
  induction l with
  | nil => exact List.Perm.refl _
  | cons q qs ih =>
    simp only [insertDesc]
    by_cases h : Frac.le q.2 p.2 = true
    · rw [if_pos h]
    · rw [if_neg h]
      exact (List.Perm.cons q ih).trans (List.Perm.swap p q qs)

theorem sortDesc_perm : ∀ l, (sortDesc l).Perm l := by
  intro l
  induction l with
  | nil => exact List.Perm.refl _
  | cons p ps ih =>
    simp only [sortDesc]
    exact (insertDesc_perm p (sortDesc ps)).trans (List.Perm.cons p ih)

theorem insertDesc_pairwise (p : String × Frac) :
    ∀ l, (∀ x ∈ p :: l, 0 < x.2.den) →
      l.Pairwise (fun a b => Frac.le b.2 a.2 = true) →
      (insertDesc p l).Pairwise (fun a b => Frac.le b.2 a.2 = true) := by
  intro l
  induction l with
  | nil => intro _ _; simp [insertDesc]
  | cons q qs ih =>
    intro hpos hpw
    rw [List.pairwise_cons] at hpw
    obtain ⟨hq, hqs⟩ := hpw
    simp only [insertDesc]
    by_cases h : Frac.le q.2 p.2 = true
    · rw [if_pos h, List.pairwise_cons]
      constructor
      · intro y hy
        rcases List.mem_cons.mp hy with heq | hmem
        · rw [heq]; exact h
        · exact frac_le_trans (hq y hmem) h (hpos q (by simp))
      · rw [List.pairwise_cons]
        exact ⟨hq, hqs⟩
    · rw [if_neg h, List.pairwise_cons]
      constructor
      · intro y hy
        have hy' : y ∈ p :: qs := (insertDesc_perm p qs).mem_iff.mp hy
        rcases List.mem_cons.mp hy' with heq | hmem
        · rw [heq]
          rcases frac_le_total q.2 p.2 with ht | ht
          · exact absurd ht h
          · exact ht
        · exact hq y hmem
      · refine ih (fun x hx => ?_) hqs
        rcases List.mem_cons.mp hx with he | hm
        · exact hpos x (by simp [he])
        · exact hpos x (by simp [hm])

theorem sortDesc_pairwise : ∀ l, (∀ x ∈ l, 0 < x.2.den) →
    (sortDesc l).Pairwise (fun a b => Frac.le b.2 a.2 = true) := by
  intro l
  induction l with
  | nil => intro _; simp [sortDesc]
  | cons p ps ih =>
    intro hpos
    simp only [sortDesc]
    apply insertDesc_pairwise
    · intro x hx
      rcases List.mem_cons.mp hx with he | hm
      · exact hpos x (by simp [he])
      · exact hpos x (by simp [(sortDesc_perm ps).mem_iff.mp hm])
    · exact ih (fun x hx => hpos x (by simp [hx]))

theorem find_first_max (e : String) :
    ∀ l : List (String × Frac),
      l.Pairwise (fun a b => Frac.le b.2 a.2 = true) →
      ∀ p, l.find? (fun x => x.1 == e) = some p →
        p.1 = e ∧ p ∈ l ∧ ∀ x ∈ l, x.1 = e → Frac.le x.2 p.2 = true := by
  intro l
  induction l with
  | nil =>
    intro _ p h
    simp at h
  | cons q qs ih =>
    intro hpw p hf
    rw [List.pairwise_cons] at hpw
    obtain ⟨hq, hqs⟩ := hpw
    by_cases hqe : (q.1 == e) = true
    · simp only [List.find?, hqe] at hf
      have hp : p = q := (Option.some.inj hf).symm
      subst hp
      refine ⟨by simpa using hqe, by simp, ?_⟩
      intro x hx _
      rcases List.mem_cons.mp hx with he | hm
      · rw [he]; exact frac_le_refl _
      · exact hq x hm
    · simp only [List.find?, bool_eq_false hqe] at hf
      obtain ⟨hpe, hpm, hmax⟩ := ih hqs p hf
      refine ⟨hpe, List.mem_cons_of_mem _ hpm, ?_⟩
      intro x hx hxe
      rcases List.mem_cons.mp hx with he | hm
      · exfalso
        apply hqe
        have : q.1 = e := by rw [← he]; exact hxe
        simp [this]
      · exact hmax x hm hxe

theorem dropDupFirstAux_mem :
    ∀ (l : List (String × Frac)) (seen : List String) (x : String × Frac),
      x ∈ dropDupFirstAux seen l → x ∈ l := by
  intro l
  induction l with
  | nil => intro seen x h; cases h
  | cons p ps ih =>
    intro seen x h
    simp only [dropDupFirstAux] at h
    by_cases hc : seen.contains p.1 = true
    · rw [if_pos hc] at h
      exact List.mem_cons_of_mem _ (ih seen x h)
    · rw [if_neg hc] at h
      rcases List.mem_cons.mp h with he | hm
      · simp [he]
      · exact List.mem_cons_of_mem _ (ih _ x hm)

theorem dropDupFirstAux_filter_seen (e : String) :
    ∀ (l : List (String × Frac)) (seen : List String), seen.contains e = true →
      (dropDupFirstAux seen l).filter (fun x => x.1 == e) = [] := by
  intro l
  induction l with
  | nil => intro seen _; rfl
  | cons p ps ih =>
    intro seen hs
    simp only [dropDupFirstAux]
    by_cases hc : seen.contains p.1 = true
    · rw [if_pos hc]
      exact ih seen hs
    · rw [if_neg hc]
      have hne : ¬((p.1 == e) = true) := by
        intro hpe
        have : p.1 = e := by simpa using hpe
        rw [this] at hc
        exact hc hs
      rw [List.filter_cons, if_neg hne]
      apply ih
      exact contains_of_mem (List.mem_cons_of_mem _ (mem_of_contains hs))

theorem dropDupFirstAux_filter (e : String) :
    ∀ (l : List (String × Frac)) (seen : List String), seen.contains e = false →
      (dropDupFirstAux seen l).filter (fun x => x.1 == e)
        = (match l.find? (fun x => x.1 == e) with
           | some p => [p]
           | none => []) := by
  intro l
  induction l with
  | nil => intro seen _; rfl
  | cons p ps ih =>
    intro seen hs
    simp only [dropDupFirstAux]
    by_cases hc : seen.contains p.1 = true
    · rw [if_pos hc]
      have hne : (p.1 == e) = false := by
        by_cases hpe : p.1 = e
        · rw [hpe] at hc
          rw [hc] at hs
          exact Bool.noConfusion hs
        · simp [hpe]
      have hfind : List.find? (fun x => x.1 == e) (p :: ps)
          = List.find? (fun x => x.1 == e) ps := by
        simp only [List.find?, hne]
      rw [hfind]
      exact ih seen hs
    · rw [if_neg hc]
      by_cases hpe : (p.1 == e) = true
      · have hfind : List.find? (fun x => x.1 == e) (p :: ps) = some p := by
          simp only [List.find?, hpe]
        rw [hfind, List.filter_cons, if_pos hpe]
        simp only []
        rw [dropDupFirstAux_filter_seen e ps (p.1 :: seen) ?_]
        have hp1 : p.1 = e := by simpa using hpe
        exact contains_of_mem (by rw [← hp1]; simp)
      · have hfind : List.find? (fun x => x.1 == e) (p :: ps)
            = List.find? (fun x => x.1 == e) ps := by
          simp only [List.find?, bool_eq_false hpe]
        rw [hfind, List.filter_cons, if_neg hpe]
        apply ih
        have h1 : p.1 ≠ e := by
          intro hh
          exact hpe (by simp [hh])
        have h2 : e ∉ seen := by simpa using hs
        have : e ∉ p.1 :: seen := by
          intro hm
          rcases List.mem_cons.mp hm with hee | hm2
          · exact h1 hee.symm
          · exact h2 hm2
        simpa using this

theorem validScores_posDen (t : List ScoreRow) :
    ∀ x ∈ validScores t, 0 < x.2.den := by
  intro x hx
  unfold validScores at hx
  rw [List.mem_filterMap] at hx
  obtain ⟨r, _, hr⟩ := hx
  cases hp : parseFloat r.score with
  | none =>
    simp only [hp] at hr
    exact Option.noConfusion hr
  | some q =>
    simp only [hp] at hr
    by_cases hb : (Frac.le ⟨0, 1⟩ q && Frac.le q ⟨100, 1⟩) = true
    · rw [if_pos hb] at hr
      have hx2 := Option.some.inj hr
      rw [← hx2]
      exact parseFloat_posDen hp
    · rw [if_neg hb] at hr
      exact Option.noConfusion hr

theorem validScores_count (t : List ScoreRow) :
    invalidScoreCount t + (validScores t).length = t.length := by
  induction t with
  | nil => rfl
  | cons r ts ih =>
    cases hp : parseFloat r.score with
    | none =>
      have h1 : invalidScoreCount (r :: ts) = invalidScoreCount ts + 1 := by
        simp [invalidScoreCount, List.filter_cons, hp]
      have h2 : validScores (r :: ts) = validScores ts := by
        simp [validScores, List.filterMap_cons, hp]
      rw [h1, h2, List.length_cons]
      omega
    | some q =>
      by_cases hb : (Frac.le ⟨0, 1⟩ q && Frac.le q ⟨100, 1⟩) = true
      · have hb2 := hb
        rw [Bool.and_eq_true] at hb2
        obtain ⟨ha1, ha2⟩ := hb2
        have h1 : invalidScoreCount (r :: ts) = invalidScoreCount ts := by
          simp [invalidScoreCount, List.filter_cons, hp, ha1, ha2]
        have h2 : validScores (r :: ts)
            = (lower (strip r.email), q) :: validScores ts := by
          simp [validScores, List.filterMap_cons, hp, ha1, ha2]
        rw [h1, h2, List.length_cons, List.length_cons]
        omega
      · have hb' : (Frac.le ⟨0, 1⟩ q && Frac.le q ⟨100, 1⟩) = false := bool_eq_false hb
        have h12 : invalidScoreCount (r :: ts) = invalidScoreCount ts + 1
            ∧ validScores (r :: ts) = validScores ts := by
          cases hA : Frac.le ⟨0, 1⟩ q with
          | false =>
            constructor
            · simp [invalidScoreCount, List.filter_cons, hp, hA]
            · simp [validScores, List.filterMap_cons, hp, hA]
          | true =>
            cases hB : Frac.le q ⟨100, 1⟩ with
            | false =>
              constructor
              · simp [invalidScoreCount, List.filter_cons, hp, hA, hB]
              · simp [validScores, List.filterMap_cons, hp, hA, hB]
            | true =>
              rw [hA, hB] at hb'
              simp at hb'
        rw [h12.1, h12.2, List.length_cons]
        omega

/-- Claim C9, confirmed: the merge basis keeps exactly one row per
identifier present among valid scores — the maximum valid score for
that identifier; everything in the deduplicated table comes from the
valid rows (invalid rows never reach the merge), and the invalid rows
are exactly the ones counted by the diagnostic. -/
theorem C9_score_dedup (t : List ScoreRow) (e : String)
    (he : ∃ p ∈ validScores t, p.1 = e) :
    (∃ q : Frac, (testSlim t).filter (fun x => x.1 == e) = [(e, q)]
       ∧ (e, q) ∈ validScores t
       ∧ ∀ x ∈ validScores t, x.1 = e → Frac.le x.2 q = true)
    ∧ (∀ x ∈ testSlim t, x ∈ validScores t)
    ∧ invalidScoreCount t + (validScores t).length = t.length := by
  have hperm := sortDesc_perm (validScores t)
  have hpw := sortDesc_pairwise (validScores t) (validScores_posDen t)
  refine ⟨?_, ?_, validScores_count t⟩
  · obtain ⟨p0, hp0m, hp0e⟩ := he
    have hsome : (List.find? (fun x => x.1 == e) (sortDesc (validScores t))).isSome := by
      rw [List.find?_isSome]
      exact ⟨p0, hperm.mem_iff.mpr hp0m, by simp [hp0e]⟩
    obtain ⟨p, hp⟩ := Option.isSome_iff_exists.mp hsome
    obtain ⟨hpe, hpm, hmax⟩ := find_first_max e (sortDesc (validScores t)) hpw p hp
    have hpp : (e, p.2) = p := by
      rw [← hpe]
    refine ⟨p.2, ?_, ?_, ?_⟩
    · unfold testSlim
      rw [dropDupFirstAux_filter e (sortDesc (validScores t)) [] rfl, hp, hpp]
    · rw [hpp]
      exact hperm.mem_iff.mp hpm
    · intro x hx hxe
      exact hmax x (hperm.mem_iff.mpr hx) hxe
  · intro x hx
    exact hperm.mem_iff.mp (dropDupFirstAux_mem (sortDesc (validScores t)) [] x hx)

/-- Witness for `C9_score_dedup`: the spec's example table — two scores
for `a@x.com` and an out-of-range `130` for `b@y.com`. -/
theorem C9_score_dedup_witness :
    ∃ q : Frac,
      (testSlim [⟨"a@x.com", "55"⟩, ⟨"a@x.com", "72"⟩, ⟨"b@y.com", "130"⟩]).filter
          (fun x => x.1 == "a@x.com") = [("a@x.com", q)]
        ∧ ("a@x.com", q)
            ∈ validScores [⟨"a@x.com", "55"⟩, ⟨"a@x.com", "72"⟩, ⟨"b@y.com", "130"⟩] := by
  obtain ⟨⟨q, h1, h2, _⟩, _, _⟩ :=
    C9_score_dedup [⟨"a@x.com", "55"⟩, ⟨"a@x.com", "72"⟩, ⟨"b@y.com", "130"⟩] "a@x.com"
      (by decide)
  exact ⟨q, h1, h2⟩

end AdmitGuard
